import Mathlib

/-!
# Separable filter kernels of Ptex (`src/ptex/PtexFilters.cpp`)

A shallow embedding of the four kernel builders of `PtexFilters.cpp`
(`PtexBicubicFilter`, `PtexGaussianFilter`, `PtexBoxFilter`,
`PtexBilinearFilter`) in exact arithmetic.

* `float` and `double` values are elements of an arbitrary linearly ordered
  field `K` with a floor function; every definition is computable at `K = ℚ`
  and every theorem stated for `K` holds in particular for `K = ℝ`.
* `int` values are elements of `ℤ`; the conversion `int(x)` is `toInt`
  (truncation toward zero).
* `PtexUtils::max` and `PtexUtils::min` are `max` and `min`.
* `ceil(log2(x))` is `ceilLog2`, computed exactly; `ceilLog2_eq_ceil_logb`
  shows that over `ℝ` it is the ceiling of the real base-2 logarithm.
* The library functions `log2` (bilinear level choice) and `exp` (gaussian
  weights) have no exact counterpart in `ℚ`; the builders that call them take
  them as arguments, and the theorems instantiate them with `Real.logb 2` and
  `Real.exp`.
* The output arrays `k.ku`, `k.kv` are lists holding the `k.uw`, `k.vw`
  entries that `computeWeights` writes.
-/

namespace Ptex

variable {K : Type*} [LinearOrderedField K]

/-! ## Types declared outside `PtexFilters.cpp` -/

/-- Modelled from the spec: the resolution type `Res` (declared in `Ptexture.h`):
a pair of log2 dimensions. -/
structure Res where
  /-- log2 of the pixel dimension along u -/
  ulog2 : ℤ
  /-- log2 of the pixel dimension along v -/
  vlog2 : ℤ

/-- Modelled from the spec: the accessor `Res::u()`, the pixel dimension `2^ulog2`
(`1 << ulog2`; a negative exponent, which the C++ leaves undefined, counts as 0). -/
def Res.u (r : Res) : ℤ := 2 ^ r.ulog2.toNat

/-- Modelled from the spec: the accessor `Res::v()`, the pixel dimension `2^vlog2`. -/
def Res.v (r : Res) : ℤ := 2 ^ r.vlog2.toNat

/-- Modelled from the spec: the kernel value object `PtexSeparableKernel` (declared in
`PtexSeparableKernel.h`): chosen resolution, integer origin `(u, v)`, tap counts
`(uw, vw)` and the per-axis weights `ku`, `kv`. -/
structure PtexSeparableKernel (K : Type*) where
  /-- chosen resolution -/
  res : Res
  /-- origin along u -/
  u : ℤ
  /-- origin along v -/
  v : ℤ
  /-- tap count along u -/
  uw : ℤ
  /-- tap count along v -/
  vw : ℤ
  /-- weights along u -/
  ku : List K
  /-- weights along v -/
  kv : List K

/-! ## C library functions in exact arithmetic -/

section Builders

variable [FloorRing K]

/-- The conversion `int(x)` of a floating value: truncation toward zero. -/
def toInt (x : K) : ℤ := if 0 ≤ x then ⌊x⌋ else ⌈x⌉

/-- The function `ceil`, with its result as a floating value. -/
def ceil (x : K) : K := ((⌈x⌉ : ℤ) : K)

/-- The function `floor`, with its result as a floating value. -/
def floor (x : K) : K := ((⌊x⌋ : ℤ) : K)

/-- The composition `ceil(log2(x))` in exact arithmetic, for `x > 0`: the least
integer `n` with `x ≤ 2^n`, as a floating value. -/
def ceilLog2 (x : K) : K := ((Int.clog 2 x : ℤ) : K)

/-! ## `PtexBicubicFilter` -/

/-- The class `PtexBicubicFilter`: its state is the array `_filter[7]`. -/
structure PtexBicubicFilter (K : Type*) where
  /-- filter coefficients for the current sharpness -/
  _filter : Fin 7 → K

/-- The constructor `PtexBicubicFilter(float sharpness)`. -/
def PtexBicubicFilter.new (sharpness : K) : PtexBicubicFilter K :=
  let B := 1 - sharpness
  { _filter := ![1.5 - B, 1.5 * B - 2.5, 1 - (1 / 3) * B, (1 / 3) * B - 0.5,
                 2.5 - 1.5 * B, 2 * B - 4, 2 - (2 / 3) * B] }

/-- The kernel function `PtexBicubicFilter::k`. -/
def PtexBicubicFilter.k (f : PtexBicubicFilter K) (x : K) : K :=
  let c := f._filter
  let x := |x|
  if x < 1 then (c 0 * x + c 1) * x * x + c 2
  else if x < 2 then ((c 3 * x + c 4) * x + c 5) * x + c 6
  else 0

/-- The method `PtexBicubicFilter::computeWeights`: the entries
`kernel[0..size-1]`. -/
def PtexBicubicFilter.computeWeights (f : PtexBicubicFilter K) (x1 step : K) (size : ℤ) :
    List K :=
  (List.range size.toNat).map (fun (i : ℕ) => f.k (x1 + (i : K) * step))

/-- The method `PtexBicubicFilter::buildKernel`. -/
def PtexBicubicFilter.buildKernel (f : PtexBicubicFilter K) (u v uw vw : K) (faceRes : Res)
    (isSubface : Bool) : PtexSeparableKernel K :=
  -- clamp filter width to no smaller than a texel
  let uw := max uw (1 / (faceRes.u : K))
  let vw := max vw (1 / (faceRes.v : K))
  -- clamp filter width to no larger than 0.25
  let minw : K := if isSubface then 0.25 else 0.125
  let uw := min uw minw
  let vw := min vw minw
  -- compute desired texture res based on filter width
  let ureslog2 := toInt (ceilLog2 (1 / uw))
  let vreslog2 := toInt (ceilLog2 (1 / vw))
  let res : Res := ⟨ureslog2, vreslog2⟩
  -- convert from normalized coords to pixel coords
  let upix := u * (res.u : K) - 0.5
  let vpix := v * (res.v : K) - 0.5
  let uwpix := uw * (res.u : K)
  let vwpix := vw * (res.v : K)
  -- find integer pixel extent: [u,v] +/- [2*uw,2*vw]
  let u1 := toInt (ceil (upix - 2 * uwpix))
  let u2 := toInt (ceil (upix + 2 * uwpix))
  let v1 := toInt (ceil (vpix - 2 * vwpix))
  let v2 := toInt (ceil (vpix + 2 * vwpix))
  { res := res, u := u1, v := v1, uw := u2 - u1, vw := v2 - v1,
    ku := f.computeWeights (((u1 : K) - upix) / uwpix) (1 / uwpix) (u2 - u1),
    kv := f.computeWeights (((v1 : K) - vpix) / vwpix) (1 / vwpix) (v2 - v1) }

/-! ## `PtexGaussianFilter` -/

/-- The kernel function `PtexGaussianFilter::k`; `exp` is the library exponential. -/
def PtexGaussianFilter.k (exp : K → K) (x : K) : K := exp (-2 * x * x)

/-- The method `PtexGaussianFilter::computeWeights`: the entries
`kernel[0..size-1]`. -/
def PtexGaussianFilter.computeWeights (exp : K → K) (x1 step : K) (size : ℤ) : List K :=
  (List.range size.toNat).map (fun (i : ℕ) => PtexGaussianFilter.k exp (x1 + (i : K) * step))

/-- The method `PtexGaussianFilter::buildKernel`; `exp` is the library exponential. -/
def PtexGaussianFilter.buildKernel (exp : K → K) (u v uw vw : K) (faceRes : Res)
    (isSubface : Bool) : PtexSeparableKernel K :=
  -- clamp filter width to no smaller than a texel
  let uw := max uw (1 / (faceRes.u : K))
  let vw := max vw (1 / (faceRes.v : K))
  -- clamp filter width to no larger than 0.25
  let minw : K := if isSubface then 0.25 else 0.125
  let uw := min uw minw
  let vw := min vw minw
  -- compute desired texture res based on filter width
  let ureslog2 := toInt (ceilLog2 (1 / uw))
  let vreslog2 := toInt (ceilLog2 (1 / vw))
  let res : Res := ⟨ureslog2, vreslog2⟩
  -- convert from normalized coords to pixel coords
  let upix := u * (res.u : K) - 0.5
  let vpix := v * (res.v : K) - 0.5
  let uwpix := uw * (res.u : K)
  let vwpix := vw * (res.v : K)
  -- find integer pixel extent: [u,v] +/- [2*uw,2*vw]
  let u1 := toInt (ceil (upix - 2 * uwpix))
  let u2 := toInt (ceil (upix + 2 * uwpix))
  let v1 := toInt (ceil (vpix - 2 * vwpix))
  let v2 := toInt (ceil (vpix + 2 * vwpix))
  { res := res, u := u1, v := v1, uw := u2 - u1, vw := v2 - v1,
    ku := PtexGaussianFilter.computeWeights exp (((u1 : K) - upix) / uwpix) (1 / uwpix) (u2 - u1),
    kv := PtexGaussianFilter.computeWeights exp (((v1 : K) - vpix) / vwpix) (1 / vwpix) (v2 - v1) }

/-! ## `PtexBoxFilter` -/

/-- The method `PtexBoxFilter::computeWeights`: the entries `kernel[0..size-1]`, or
`none` when the assertion `size >= 1 && size <= 3` fails. -/
def PtexBoxFilter.computeWeights (size : ℤ) (f1 f2 : K) : Option (List K) :=
  if size ≥ 1 ∧ size ≤ 3 then
    if size = 1 then some [f1 + f2 - 1]
    else some (f1 :: (List.replicate (size - 2).toNat (1.0 : K) ++ [f2]))
  else none

/-- The method `PtexBoxFilter::buildKernel`; the result is `none` when the
assertion of `computeWeights` fails. -/
def PtexBoxFilter.buildKernel (u v uw vw : K) (faceRes : Res) (_isSubface : Bool) :
    Option (PtexSeparableKernel K) :=
  -- clamp filter width to no larger than 1.0
  let uw := min uw 1.0
  let vw := min vw 1.0
  -- clamp filter width to no smaller than a texel
  let uw := max uw (1 / (faceRes.u : K))
  let vw := max vw (1 / (faceRes.v : K))
  -- compute desired texture res based on filter width
  let ureslog2 := toInt (ceilLog2 (1 / uw))
  let vreslog2 := toInt (ceilLog2 (1 / vw))
  let res : Res := ⟨ureslog2, vreslog2⟩
  -- convert from normalized coords to pixel coords
  let u := u * (res.u : K)
  let v := v * (res.v : K)
  let uw := uw * (res.u : K)
  let vw := vw * (res.v : K)
  -- find integer pixel extent: [u,v] +/- [uw/2,vw/2]
  let u1 := u - 0.5 * uw
  let u2 := u + 0.5 * uw
  let v1 := v - 0.5 * vw
  let v2 := v + 0.5 * vw
  let u1floor := floor u1
  let u2ceil := ceil u2
  let v1floor := floor v1
  let v2ceil := ceil v2
  let ku := toInt u1floor
  let kv := toInt v1floor
  let kuw := toInt u2ceil - ku
  let kvw := toInt v2ceil - kv
  -- compute kernel weights along u and v directions
  (PtexBoxFilter.computeWeights kuw (1 - (u1 - u1floor)) (1 - (u2ceil - u2))).bind fun wu =>
  (PtexBoxFilter.computeWeights kvw (1 - (v1 - v1floor)) (1 - (v2ceil - v2))).bind fun wv =>
  some { res := res, u := ku, v := kv, uw := kuw, vw := kvw, ku := wu, kv := wv }

/-! ## `PtexBilinearFilter` -/

/-- The constant `roundWidth` of `PtexBilinearFilter::buildKernel`. -/
def PtexBilinearFilter.roundWidth : K := 0.5849625007211563

/-- The level expression `int(log2(1.0/w) + roundWidth)` of
`PtexBilinearFilter::buildKernel`; `log2` is the library logarithm. -/
def PtexBilinearFilter.reslog2 (log2 : K → K) (roundWidth w : K) : ℤ :=
  toInt (log2 (1 / w) + roundWidth)

/-- The method `PtexBilinearFilter::buildKernel`; `log2` is the library logarithm. -/
def PtexBilinearFilter.buildKernel (log2 : K → K) (u v uw vw : K) (faceRes : Res)
    (_isSubface : Bool) : PtexSeparableKernel K :=
  -- clamp filter width to no larger than 1.0
  let uw := min uw 1.0
  let vw := min vw 1.0
  -- clamp filter width to no smaller than a texel
  let uw := max uw (1 / (faceRes.u : K))
  let vw := max vw (1 / (faceRes.v : K))
  -- choose resolution closest to filter res
  let ureslog2 := PtexBilinearFilter.reslog2 log2 PtexBilinearFilter.roundWidth uw
  let vreslog2 := PtexBilinearFilter.reslog2 log2 PtexBilinearFilter.roundWidth vw
  let res : Res := ⟨ureslog2, vreslog2⟩
  -- convert from normalized coords to pixel coords
  let upix := u * (res.u : K) - 0.5
  let vpix := v * (res.v : K) - 0.5
  let ufloor := floor upix
  let vfloor := floor vpix
  -- compute kernel weights
  let ufrac := upix - ufloor
  let vfrac := vpix - vfloor
  { res := res, u := toInt ufloor, v := toInt vfloor, uw := 2, vw := 2,
    ku := [1 - ufrac, ufrac], kv := [1 - vfrac, vfrac] }

end Builders

/-! ## Factory functions -/

/-- The factory `PtexFilter::bicubic`. -/
def bicubic (sharpness : K) : PtexBicubicFilter K := PtexBicubicFilter.new sharpness

/-- The factory `PtexFilter::bspline`. -/
def bspline : PtexBicubicFilter K := PtexBicubicFilter.new 0.0

/-- The factory `PtexFilter::catmullrom`. -/
def catmullrom : PtexBicubicFilter K := PtexBicubicFilter.new 1.0

/-- The factory `PtexFilter::mitchell`. -/
def mitchell : PtexBicubicFilter K := PtexBicubicFilter.new (2.0 / 3.0)

/-- The piecewise cubic of the specification, with parameters `B` and `C`. -/
def specCubic (B C x : K) : K :=
  if |x| < 1 then
    ((12 - 9 * B - 6 * C) * |x| ^ 3 + (-18 + 12 * B + 6 * C) * |x| ^ 2 + (6 - 2 * B)) / 6
  else if |x| < 2 then
    ((-B - 6 * C) * |x| ^ 3 + (6 * B + 30 * C) * |x| ^ 2 + (-12 * B - 48 * C) * |x|
      + (8 * B + 24 * C)) / 6
  else 0

/-! ## Theorems -/

/-! ### Shared lemmas -/

theorem Res.one_le_u (r : Res) : (1 : K) ≤ (r.u : K) := by
  unfold Res.u
  push_cast
  exact one_le_pow₀ (by norm_num)

theorem Res.one_le_v (r : Res) : (1 : K) ≤ (r.v : K) := by
  unfold Res.v
  push_cast
  exact one_le_pow₀ (by norm_num)

theorem PtexBoxFilter.computeWeights_some (size : ℤ) (f1 f2 : K) (h1 : 1 ≤ size)
    (h3 : size ≤ 3) :
    ∃ l, PtexBoxFilter.computeWeights size f1 f2 = some l ∧ l.length = size.toNat
      ∧ l.sum = f1 + f2 + ((size : K) - 2) := by
  have hs : size = 1 ∨ size = 2 ∨ size = 3 := by omega
  rcases hs with rfl | rfl | rfl
  · exact ⟨_, rfl, rfl, by simp; ring⟩
  · refine ⟨[f1, f2], ?_, rfl, by simp⟩
    simp [PtexBoxFilter.computeWeights]
  · refine ⟨[f1, 1, f2], ?_, rfl, by simp; ring⟩
    simp [PtexBoxFilter.computeWeights, List.replicate]
    norm_num

theorem clamp_box (w : K) (r : Res) :
    0 < max (min w 1.0) (1 / (r.u : K)) ∧ max (min w 1.0) (1 / (r.u : K)) ≤ 1
    ∧ 0 < max (min w 1.0) (1 / (r.v : K)) ∧ max (min w 1.0) (1 / (r.v : K)) ≤ 1 := by
  have hu := Res.one_le_u (K := K) r
  have hv := Res.one_le_v (K := K) r
  have hu0 : (0 : K) < 1 / (r.u : K) := by positivity
  have hv0 : (0 : K) < 1 / (r.v : K) := by positivity
  have hu1 : 1 / (r.u : K) ≤ 1 := by rw [div_le_iff₀ (by linarith)]; linarith
  have hv1 : 1 / (r.v : K) ≤ 1 := by rw [div_le_iff₀ (by linarith)]; linarith
  have h1 : min w (1.0 : K) ≤ 1 := by norm_num
  exact ⟨lt_max_of_lt_right hu0, max_le h1 hu1, lt_max_of_lt_right hv0, max_le h1 hv1⟩

theorem clamp_cubic (w : K) (r : Res) (sub : Bool) :
    0 < min (max w (1 / (r.u : K))) (if sub = true then 0.25 else 0.125)
    ∧ min (max w (1 / (r.u : K))) (if sub = true then 0.25 else 0.125) ≤ 1
    ∧ 0 < min (max w (1 / (r.v : K))) (if sub = true then 0.25 else 0.125)
    ∧ min (max w (1 / (r.v : K))) (if sub = true then 0.25 else 0.125) ≤ 1 := by
  have hu := Res.one_le_u (K := K) r
  have hv := Res.one_le_v (K := K) r
  have hu0 : (0 : K) < 1 / (r.u : K) := by positivity
  have hv0 : (0 : K) < 1 / (r.v : K) := by positivity
  have hm0 : (0 : K) < (if sub = true then 0.25 else 0.125) := by split_ifs <;> norm_num
  have hm1 : (if sub = true then 0.25 else 0.125 : K) ≤ 1 := by split_ifs <;> norm_num
  exact ⟨lt_min (lt_max_of_lt_right hu0) hm0, (min_le_right _ _).trans hm1,
    lt_min (lt_max_of_lt_right hv0) hm0, (min_le_right _ _).trans hm1⟩

theorem clamp_box_mono {w1 w2 : K} (a : K) (h : w1 ≤ w2) :
    max (min w1 1.0) a ≤ max (min w2 1.0) a :=
  max_le_max (min_le_min h le_rfl) le_rfl

theorem clamp_cubic_mono {w1 w2 : K} (a m : K) (h : w1 ≤ w2) :
    min (max w1 a) m ≤ min (max w2 a) m :=
  min_le_min (max_le_max h le_rfl) le_rfl

theorem Res.u_eq_zpow (r : Res) (h : 0 ≤ r.ulog2) : (r.u : K) = (2 : K) ^ r.ulog2 := by
  obtain ⟨n, hn⟩ := Int.eq_ofNat_of_zero_le h
  unfold Res.u
  rw [hn]
  simp

theorem Res.v_eq_zpow (r : Res) (h : 0 ≤ r.vlog2) : (r.v : K) = (2 : K) ^ r.vlog2 := by
  obtain ⟨n, hn⟩ := Int.eq_ofNat_of_zero_le h
  unfold Res.v
  rw [hn]
  simp

/-- The upper clamp `minw` of the bicubic and gaussian builders is `2^-2` for a subface
and `2^-3` otherwise. -/
theorem minw_eq_zpow (sub : Bool) :
    (if sub = true then 0.25 else 0.125 : K) = 1 / (2 : K) ^ (if sub = true then 2 else 3 : ℤ) := by
  cases sub <;> norm_num

/-- The clamped width of the bicubic and gaussian builders is at least
`2^-max(L, cap)` when the face has pixel dimension `2^L`. -/
theorem clamp_cubic_lower (w a : K) (L : ℤ) (sub : Bool) (ha : a = 1 / (2 : K) ^ L) :
    min (1 / (2 : K) ^ L) (if sub = true then 0.25 else 0.125)
      ≤ min (max w a) (if sub = true then 0.25 else 0.125)
    ∧ 1 / (2 : K) ^ (max L (if sub = true then 2 else 3))
      ≤ min (max w a) (if sub = true then 0.25 else 0.125) := by
  have h1 : min (1 / (2 : K) ^ L) (if sub = true then 0.25 else 0.125)
      ≤ min (max w a) (if sub = true then 0.25 else 0.125) :=
    min_le_min (by rw [ha]; exact le_max_right _ _) le_rfl
  refine ⟨h1, le_trans (le_min ?_ ?_) h1⟩
  · exact one_div_le_one_div_of_le (by positivity)
      (zpow_le_zpow_right₀ (by norm_num) (le_max_left _ _))
  · rw [minw_eq_zpow]
    exact one_div_le_one_div_of_le (by positivity)
      (zpow_le_zpow_right₀ (by norm_num) (le_max_right _ _))

/-- The kernel argument of the `j`-th weight written from the origin `a`. -/
theorem tap_argument (a : ℤ) (p wp : K) (j : ℕ) :
    ((a : K) - p) / wp + (j : K) * (1 / wp) = (((a + (j : ℤ) : ℤ) : K) - p) / wp := by
  push_cast
  ring

section Lemmas

variable [FloorRing K]

theorem toInt_intCast (n : ℤ) : toInt (n : K) = n := by
  unfold toInt
  split_ifs <;> simp

theorem toInt_ceil (x : K) : toInt (ceil x) = ⌈x⌉ := toInt_intCast _

theorem toInt_floor (x : K) : toInt (floor x) = ⌊x⌋ := toInt_intCast _

theorem toInt_ceilLog2 (x : K) : toInt (ceilLog2 x) = Int.clog 2 x := toInt_intCast _

/-- For a width `0 < w ≤ 1` the level `ceil(log2(1/w))` is non-negative and the width in
pixels at that level lies in `[1, 2)`. -/
theorem level_pixel_width (w : K) (h0 : 0 < w) (h1 : w ≤ 1) :
    0 ≤ Int.clog 2 (1 / w) ∧ 1 ≤ w * (((2 : ℤ) ^ (Int.clog 2 (1 / w)).toNat : ℤ) : K)
      ∧ w * (((2 : ℤ) ^ (Int.clog 2 (1 / w)).toNat : ℤ) : K) < 2 := by
  have hx : 0 < 1 / w := by positivity
  have hx1 : 1 ≤ 1 / w := by rw [le_div_iff₀ h0]; linarith
  have hn : 0 ≤ Int.clog 2 (1 / w) := by
    rw [Int.clog_of_one_le_right 2 hx1]
    exact Int.natCast_nonneg _
  have hup := Int.self_le_zpow_clog (R := K) (b := 2) (by norm_num) (1 / w)
  have hlo := Int.zpow_pred_clog_lt_self (R := K) (b := 2) (r := 1 / w) (by norm_num) hx
  obtain ⟨m, hm⟩ := Int.eq_ofNat_of_zero_le hn
  rw [hm] at hup hlo ⊢
  simp only [Int.toNat_ofNat, Int.cast_pow, Int.cast_ofNat, zpow_natCast, Nat.cast_ofNat] at hup hlo ⊢
  refine ⟨Int.natCast_nonneg _, ?_, ?_⟩
  · rw [div_le_iff₀ h0] at hup; linarith
  · have h2 : ((2 : K)) ^ ((m : ℤ) - 1) = 2 ^ m / 2 := by
      rw [zpow_sub_one₀ (by norm_num), zpow_natCast]; ring
    change ((2 : ℕ) : K) ^ ((m : ℤ) - 1) < 1 / w at hlo
    rw [Nat.cast_ofNat, h2, lt_div_iff₀ h0] at hlo
    linarith

/-- Evaluation of `ceil(log2(x))`: it is `n` when `2^(n-1) < x ≤ 2^n`. -/
theorem clog_two_eq {x : K} {n : ℤ} (h1 : (2 : K) ^ (n - 1) < x) (h2 : x ≤ (2 : K) ^ n) :
    Int.clog 2 x = n := by
  have hx : 0 < x := lt_trans (by positivity) h1
  have ha : Int.clog 2 x ≤ n :=
    (Int.le_zpow_iff_clog_le (b := 2) (by norm_num) hx).1 (by exact_mod_cast h2)
  have hb : n - 1 < Int.clog 2 x :=
    (Int.zpow_lt_iff_lt_clog (b := 2) (by norm_num) hx).1 (by exact_mod_cast h1)
  omega

theorem ceil_sub_floor_bounds (a b : K) (h1 : 1 ≤ b - a) (h2 : b - a < 2) :
    1 ≤ ⌈b⌉ - ⌊a⌋ ∧ ⌈b⌉ - ⌊a⌋ ≤ 3 := by
  have hc1 := Int.le_ceil b
  have hc2 := Int.ceil_lt_add_one b
  have hf1 := Int.floor_le a
  have hf2 := Int.lt_floor_add_one a
  constructor
  · have : ((1 : ℤ) : K) ≤ ((⌈b⌉ - ⌊a⌋ : ℤ) : K) := by
      push_cast; linarith
    exact_mod_cast this
  · have : ((⌈b⌉ - ⌊a⌋ : ℤ) : K) < ((4 : ℤ) : K) := by
      push_cast; linarith
    have h4 : ⌈b⌉ - ⌊a⌋ < 4 := by exact_mod_cast this
    omega

/-- Everything `PtexBoxFilter::buildKernel` returns, per axis: the assertion holds, the
level is `ceil(log2(1/w))` for the clamped width `w`, the pixel width `w * R` lies in
`[1, 2)`, the tap count is 1, 2 or 3 and the weights sum to the pixel width. -/
theorem box_buildKernel_spec (u v uw vw : K) (faceRes : Res) (sub : Bool) :
    ∃ k, PtexBoxFilter.buildKernel u v uw vw faceRes sub = some k
      ∧ k.res.ulog2 = Int.clog 2 (1 / max (min uw 1.0) (1 / (faceRes.u : K)))
      ∧ k.res.vlog2 = Int.clog 2 (1 / max (min vw 1.0) (1 / (faceRes.v : K)))
      ∧ 1 ≤ max (min uw 1.0) (1 / (faceRes.u : K)) * (k.res.u : K)
      ∧ max (min uw 1.0) (1 / (faceRes.u : K)) * (k.res.u : K) < 2
      ∧ 1 ≤ max (min vw 1.0) (1 / (faceRes.v : K)) * (k.res.v : K)
      ∧ max (min vw 1.0) (1 / (faceRes.v : K)) * (k.res.v : K) < 2
      ∧ 1 ≤ k.uw ∧ k.uw ≤ 3 ∧ 1 ≤ k.vw ∧ k.vw ≤ 3
      ∧ k.ku.length = k.uw.toNat ∧ k.kv.length = k.vw.toNat
      ∧ k.ku.sum = max (min uw 1.0) (1 / (faceRes.u : K)) * (k.res.u : K)
      ∧ k.kv.sum = max (min vw 1.0) (1 / (faceRes.v : K)) * (k.res.v : K)
      ∧ k.u = ⌊u * (k.res.u : K)
          - 0.5 * (max (min uw 1.0) (1 / (faceRes.u : K)) * (k.res.u : K))⌋
      ∧ k.v = ⌊v * (k.res.v : K)
          - 0.5 * (max (min vw 1.0) (1 / (faceRes.v : K)) * (k.res.v : K))⌋
      ∧ k.uw = ⌈u * (k.res.u : K)
          + 0.5 * (max (min uw 1.0) (1 / (faceRes.u : K)) * (k.res.u : K))⌉ - k.u
      ∧ k.vw = ⌈v * (k.res.v : K)
          + 0.5 * (max (min vw 1.0) (1 / (faceRes.v : K)) * (k.res.v : K))⌉ - k.v
      ∧ PtexBoxFilter.computeWeights k.uw
          (1 - (u * (k.res.u : K)
              - 0.5 * (max (min uw 1.0) (1 / (faceRes.u : K)) * (k.res.u : K))
            - floor (u * (k.res.u : K)
              - 0.5 * (max (min uw 1.0) (1 / (faceRes.u : K)) * (k.res.u : K)))))
          (1 - (ceil (u * (k.res.u : K)
              + 0.5 * (max (min uw 1.0) (1 / (faceRes.u : K)) * (k.res.u : K)))
            - (u * (k.res.u : K)
              + 0.5 * (max (min uw 1.0) (1 / (faceRes.u : K)) * (k.res.u : K)))))
          = some k.ku
      ∧ PtexBoxFilter.computeWeights k.vw
          (1 - (v * (k.res.v : K)
              - 0.5 * (max (min vw 1.0) (1 / (faceRes.v : K)) * (k.res.v : K))
            - floor (v * (k.res.v : K)
              - 0.5 * (max (min vw 1.0) (1 / (faceRes.v : K)) * (k.res.v : K)))))
          (1 - (ceil (v * (k.res.v : K)
              + 0.5 * (max (min vw 1.0) (1 / (faceRes.v : K)) * (k.res.v : K)))
            - (v * (k.res.v : K)
              + 0.5 * (max (min vw 1.0) (1 / (faceRes.v : K)) * (k.res.v : K)))))
          = some k.kv := by
  obtain ⟨hu0, hu1, -, -⟩ := clamp_box uw faceRes
  obtain ⟨-, -, hv0, hv1⟩ := clamp_box vw faceRes
  simp only [PtexBoxFilter.buildKernel, toInt_ceil, toInt_floor, toInt_ceilLog2, Res.u, Res.v]
    at hu0 hu1 hv0 hv1 ⊢
  set wu := max (min uw 1.0) (1 / (((2 : ℤ) ^ faceRes.ulog2.toNat : ℤ) : K)) with hwu
  set wv := max (min vw 1.0) (1 / (((2 : ℤ) ^ faceRes.vlog2.toNat : ℤ) : K)) with hwv
  obtain ⟨-, hpu1, hpu2⟩ := level_pixel_width wu hu0 hu1
  obtain ⟨-, hpv1, hpv2⟩ := level_pixel_width wv hv0 hv1
  set Ru := (((2 : ℤ) ^ (Int.clog 2 (1 / wu)).toNat : ℤ) : K) with hRu
  set Rv := (((2 : ℤ) ^ (Int.clog 2 (1 / wv)).toNat : ℤ) : K) with hRv
  have hsu := ceil_sub_floor_bounds (u * Ru - 0.5 * (wu * Ru)) (u * Ru + 0.5 * (wu * Ru))
    (by norm_num; linarith) (by norm_num; linarith)
  have hsv := ceil_sub_floor_bounds (v * Rv - 0.5 * (wv * Rv)) (v * Rv + 0.5 * (wv * Rv))
    (by norm_num; linarith) (by norm_num; linarith)
  obtain ⟨lu, hlu, hlenu, hsumu⟩ := PtexBoxFilter.computeWeights_some
    (⌈u * Ru + 0.5 * (wu * Ru)⌉ - ⌊u * Ru - 0.5 * (wu * Ru)⌋)
    (1 - (u * Ru - 0.5 * (wu * Ru) - floor (u * Ru - 0.5 * (wu * Ru))))
    (1 - (ceil (u * Ru + 0.5 * (wu * Ru)) - (u * Ru + 0.5 * (wu * Ru)))) hsu.1 hsu.2
  obtain ⟨lv, hlv, hlenv, hsumv⟩ := PtexBoxFilter.computeWeights_some
    (⌈v * Rv + 0.5 * (wv * Rv)⌉ - ⌊v * Rv - 0.5 * (wv * Rv)⌋)
    (1 - (v * Rv - 0.5 * (wv * Rv) - floor (v * Rv - 0.5 * (wv * Rv))))
    (1 - (ceil (v * Rv + 0.5 * (wv * Rv)) - (v * Rv + 0.5 * (wv * Rv)))) hsv.1 hsv.2
  rw [hlu, hlv]
  refine ⟨_, rfl, rfl, rfl, hpu1, hpu2, hpv1, hpv2, hsu.1, hsu.2, hsv.1, hsv.2, hlenu, hlenv,
    ?_, ?_, rfl, rfl, rfl, rfl, hlu, hlv⟩
  · rw [hsumu, hRu]; simp only [ceil, floor]; push_cast; ring
  · rw [hsumv, hRv]; simp only [ceil, floor]; push_cast; ring

/-- The width in pixels at the level `ceil(log2(1/w))` is 1 exactly when `w` is a
reciprocal power of two. -/
theorem pixel_width_eq_one_iff (w : K) (h0 : 0 < w) :
    w * (((2 : ℤ) ^ (Int.clog 2 (1 / w)).toNat : ℤ) : K) = 1 ↔ ∃ n : ℕ, w = 1 / 2 ^ n := by
  constructor
  · intro h
    refine ⟨(Int.clog 2 (1 / w)).toNat, ?_⟩
    push_cast at h
    rw [eq_div_iff (by positivity)]
    exact h
  · rintro ⟨n, rfl⟩
    have h2 : (1 : K) / (1 / 2 ^ n) = ((2 : ℕ) : K) ^ (n : ℤ) := by
      rw [one_div_one_div, zpow_natCast, Nat.cast_ofNat]
    rw [h2, Int.clog_zpow (R := K) (b := 2) (by norm_num) (n : ℤ), Int.toNat_ofNat]
    push_cast
    field_simp

theorem ceil_eq_neg_floor_neg (x : K) : ⌈x⌉ = -⌊-x⌋ := by
  rw [Int.floor_neg, neg_neg]

theorem ceil_sub_ceil_bounds (a b : K) (h1 : 4 ≤ b - a) (h2 : b - a < 8) :
    4 ≤ ⌈b⌉ - ⌈a⌉ ∧ ⌈b⌉ - ⌈a⌉ ≤ 8 := by
  have hb1 := Int.le_ceil b
  have hb2 := Int.ceil_lt_add_one b
  have ha1 := Int.le_ceil a
  have ha2 := Int.ceil_lt_add_one a
  constructor
  · have : ((3 : ℤ) : K) < ((⌈b⌉ - ⌈a⌉ : ℤ) : K) := by
      push_cast; linarith
    have h3 : 3 < ⌈b⌉ - ⌈a⌉ := by exact_mod_cast this
    omega
  · have : ((⌈b⌉ - ⌈a⌉ : ℤ) : K) < ((9 : ℤ) : K) := by
      push_cast; linarith
    have h9 : ⌈b⌉ - ⌈a⌉ < 9 := by exact_mod_cast this
    omega

/-- Everything `PtexBicubicFilter::buildKernel` returns, per axis, in terms of the
clamped width `w`, the pixel coordinate `p` and the pixel width `wp`. -/
theorem bicubic_buildKernel_spec (f : PtexBicubicFilter K) (u v uw vw : K)
    (faceRes : Res) (sub : Bool) :
    ∃ (k : PtexSeparableKernel K) (wu wv pu pv wpu wpv : K),
      k = f.buildKernel u v uw vw faceRes sub
      ∧ wu = min (max uw (1 / (faceRes.u : K))) (if sub = true then 0.25 else 0.125)
      ∧ wv = min (max vw (1 / (faceRes.v : K))) (if sub = true then 0.25 else 0.125)
      ∧ k.res.ulog2 = Int.clog 2 (1 / wu) ∧ k.res.vlog2 = Int.clog 2 (1 / wv)
      ∧ pu = u * (k.res.u : K) - 0.5 ∧ pv = v * (k.res.v : K) - 0.5
      ∧ wpu = wu * (k.res.u : K) ∧ wpv = wv * (k.res.v : K)
      ∧ 1 ≤ wpu ∧ wpu < 2 ∧ 1 ≤ wpv ∧ wpv < 2
      ∧ k.u = ⌈pu - 2 * wpu⌉ ∧ k.v = ⌈pv - 2 * wpv⌉
      ∧ k.uw = ⌈pu + 2 * wpu⌉ - ⌈pu - 2 * wpu⌉ ∧ k.vw = ⌈pv + 2 * wpv⌉ - ⌈pv - 2 * wpv⌉
      ∧ 4 ≤ k.uw ∧ k.uw ≤ 8 ∧ 4 ≤ k.vw ∧ k.vw ≤ 8
      ∧ k.ku = f.computeWeights (((k.u : K) - pu) / wpu) (1 / wpu) k.uw
      ∧ k.kv = f.computeWeights (((k.v : K) - pv) / wpv) (1 / wpv) k.vw := by
  obtain ⟨hu0, hu1, -, -⟩ := clamp_cubic uw faceRes sub
  obtain ⟨-, -, hv0, hv1⟩ := clamp_cubic vw faceRes sub
  obtain ⟨-, hpu1, hpu2⟩ := level_pixel_width _ hu0 hu1
  obtain ⟨-, hpv1, hpv2⟩ := level_pixel_width _ hv0 hv1
  refine ⟨_, _, _, _, _, _, _, rfl, rfl, rfl, toInt_ceilLog2 _, toInt_ceilLog2 _, rfl, rfl,
    rfl, rfl, ?_, ?_, ?_, ?_, toInt_ceil _, toInt_ceil _, ?_, ?_, ?_⟩
  · simpa only [PtexBicubicFilter.buildKernel, toInt_ceilLog2, Res.u] using hpu1
  · simpa only [PtexBicubicFilter.buildKernel, toInt_ceilLog2, Res.u] using hpu2
  · simpa only [PtexBicubicFilter.buildKernel, toInt_ceilLog2, Res.v] using hpv1
  · simpa only [PtexBicubicFilter.buildKernel, toInt_ceilLog2, Res.v] using hpv2
  · simp only [PtexBicubicFilter.buildKernel, toInt_ceil]
  · simp only [PtexBicubicFilter.buildKernel, toInt_ceil]
  · simp only [PtexBicubicFilter.buildKernel, toInt_ceil, toInt_ceilLog2, Res.u, Res.v]
      at hpu1 hpu2 hpv1 hpv2 ⊢
    set wu := min (max uw (1 / (((2 : ℤ) ^ faceRes.ulog2.toNat : ℤ) : K)))
      (if sub = true then 0.25 else 0.125) with hwu
    set wv := min (max vw (1 / (((2 : ℤ) ^ faceRes.vlog2.toNat : ℤ) : K)))
      (if sub = true then 0.25 else 0.125) with hwv
    set Ru := (((2 : ℤ) ^ (Int.clog 2 (1 / wu)).toNat : ℤ) : K) with hRu
    set Rv := (((2 : ℤ) ^ (Int.clog 2 (1 / wv)).toNat : ℤ) : K) with hRv
    have hsu := ceil_sub_ceil_bounds (u * Ru - 0.5 - 2 * (wu * Ru))
      (u * Ru - 0.5 + 2 * (wu * Ru)) (by linarith) (by linarith)
    have hsv := ceil_sub_ceil_bounds (v * Rv - 0.5 - 2 * (wv * Rv))
      (v * Rv - 0.5 + 2 * (wv * Rv)) (by linarith) (by linarith)
    exact ⟨hsu.1, hsu.2, hsv.1, hsv.2, trivial, trivial⟩

/-- Everything `PtexGaussianFilter::buildKernel` returns, per axis, in terms of the
clamped width `w`, the pixel coordinate `p` and the pixel width `wp`. -/
theorem gaussian_buildKernel_spec (exp : K → K) (u v uw vw : K)
    (faceRes : Res) (sub : Bool) :
    ∃ (k : PtexSeparableKernel K) (wu wv pu pv wpu wpv : K),
      k = PtexGaussianFilter.buildKernel exp u v uw vw faceRes sub
      ∧ wu = min (max uw (1 / (faceRes.u : K))) (if sub = true then 0.25 else 0.125)
      ∧ wv = min (max vw (1 / (faceRes.v : K))) (if sub = true then 0.25 else 0.125)
      ∧ k.res.ulog2 = Int.clog 2 (1 / wu) ∧ k.res.vlog2 = Int.clog 2 (1 / wv)
      ∧ pu = u * (k.res.u : K) - 0.5 ∧ pv = v * (k.res.v : K) - 0.5
      ∧ wpu = wu * (k.res.u : K) ∧ wpv = wv * (k.res.v : K)
      ∧ 1 ≤ wpu ∧ wpu < 2 ∧ 1 ≤ wpv ∧ wpv < 2
      ∧ k.u = ⌈pu - 2 * wpu⌉ ∧ k.v = ⌈pv - 2 * wpv⌉
      ∧ k.uw = ⌈pu + 2 * wpu⌉ - ⌈pu - 2 * wpu⌉ ∧ k.vw = ⌈pv + 2 * wpv⌉ - ⌈pv - 2 * wpv⌉
      ∧ 4 ≤ k.uw ∧ k.uw ≤ 8 ∧ 4 ≤ k.vw ∧ k.vw ≤ 8
      ∧ k.ku = PtexGaussianFilter.computeWeights exp (((k.u : K) - pu) / wpu) (1 / wpu) k.uw
      ∧ k.kv = PtexGaussianFilter.computeWeights exp (((k.v : K) - pv) / wpv) (1 / wpv) k.vw := by
  obtain ⟨hu0, hu1, -, -⟩ := clamp_cubic uw faceRes sub
  obtain ⟨-, -, hv0, hv1⟩ := clamp_cubic vw faceRes sub
  obtain ⟨-, hpu1, hpu2⟩ := level_pixel_width _ hu0 hu1
  obtain ⟨-, hpv1, hpv2⟩ := level_pixel_width _ hv0 hv1
  refine ⟨_, _, _, _, _, _, _, rfl, rfl, rfl, toInt_ceilLog2 _, toInt_ceilLog2 _, rfl, rfl,
    rfl, rfl, ?_, ?_, ?_, ?_, toInt_ceil _, toInt_ceil _, ?_, ?_, ?_⟩
  · simpa only [PtexGaussianFilter.buildKernel, toInt_ceilLog2, Res.u] using hpu1
  · simpa only [PtexGaussianFilter.buildKernel, toInt_ceilLog2, Res.u] using hpu2
  · simpa only [PtexGaussianFilter.buildKernel, toInt_ceilLog2, Res.v] using hpv1
  · simpa only [PtexGaussianFilter.buildKernel, toInt_ceilLog2, Res.v] using hpv2
  · simp only [PtexGaussianFilter.buildKernel, toInt_ceil]
  · simp only [PtexGaussianFilter.buildKernel, toInt_ceil]
  · simp only [PtexGaussianFilter.buildKernel, toInt_ceil, toInt_ceilLog2, Res.u, Res.v]
      at hpu1 hpu2 hpv1 hpv2 ⊢
    set wu := min (max uw (1 / (((2 : ℤ) ^ faceRes.ulog2.toNat : ℤ) : K)))
      (if sub = true then 0.25 else 0.125) with hwu
    set wv := min (max vw (1 / (((2 : ℤ) ^ faceRes.vlog2.toNat : ℤ) : K)))
      (if sub = true then 0.25 else 0.125) with hwv
    set Ru := (((2 : ℤ) ^ (Int.clog 2 (1 / wu)).toNat : ℤ) : K) with hRu
    set Rv := (((2 : ℤ) ^ (Int.clog 2 (1 / wv)).toNat : ℤ) : K) with hRv
    have hsu := ceil_sub_ceil_bounds (u * Ru - 0.5 - 2 * (wu * Ru))
      (u * Ru - 0.5 + 2 * (wu * Ru)) (by linarith) (by linarith)
    have hsv := ceil_sub_ceil_bounds (v * Rv - 0.5 - 2 * (wv * Rv))
      (v * Rv - 0.5 + 2 * (wv * Rv)) (by linarith) (by linarith)
    exact ⟨hsu.1, hsu.2, hsv.1, hsv.2, trivial, trivial⟩

theorem toInt_mono {x y : K} (h : x ≤ y) : toInt x ≤ toInt y := by
  unfold toInt
  split_ifs with hx hy hy
  · exact Int.floor_le_floor h
  · exact absurd (hx.trans h) hy
  · have h1 : ⌈x⌉ ≤ 0 := Int.ceil_le.2 (by push_cast; exact le_of_lt (not_le.1 hx))
    have h2 : 0 ≤ ⌊y⌋ := Int.floor_nonneg.2 hy
    omega
  · exact Int.ceil_le_ceil h

/-- The level `ceil(log2(1/w))` decreases when the width grows. -/
theorem clog_inv_antitone {w1 w2 : K} (h0 : 0 < w1) (h : w1 ≤ w2) :
    Int.clog 2 (1 / w2) ≤ Int.clog 2 (1 / w1) :=
  Int.clog_mono_right (by have := h0.trans_le h; positivity) (one_div_le_one_div_of_le h0 h)

/-- The level `ceil(log2(1/w))` is at most `n` when `w` is at least `2^-n`. -/
theorem clog_inv_le {w : K} {n : ℤ} (h0 : 0 < w) (h : 1 / (2 : K) ^ n ≤ w) :
    Int.clog 2 (1 / w) ≤ n := by
  have h2 : (0 : K) < (2 : K) ^ n := by positivity
  have h1 : 1 / w ≤ ((2 : ℕ) : K) ^ n := by
    rw [Nat.cast_ofNat, div_le_iff₀ h0]
    rw [div_le_iff₀ h2] at h
    linarith
  exact (Int.le_zpow_iff_clog_le (b := 2) (by norm_num) (by positivity)).1 h1

/-- The integers between `ceil(p - 2 wp)` and `ceil(p + 2 wp)` are those of
`[p - 2 wp, p + 2 wp)`, and their kernel arguments `(i - p) / wp` fill `[-2, 2)`. -/
theorem support_iff (p wp : K) (hwp : 0 < wp) (i : ℤ) :
    ((⌈p - 2 * wp⌉ ≤ i ∧ i < ⌈p - 2 * wp⌉ + (⌈p + 2 * wp⌉ - ⌈p - 2 * wp⌉))
      ↔ (p - 2 * wp ≤ (i : K) ∧ (i : K) < p + 2 * wp))
    ∧ ((⌈p - 2 * wp⌉ ≤ i ∧ i < ⌈p - 2 * wp⌉ + (⌈p + 2 * wp⌉ - ⌈p - 2 * wp⌉))
      ↔ (-2 ≤ ((i : K) - p) / wp ∧ ((i : K) - p) / wp < 2)) := by
  have h1 : (⌈p - 2 * wp⌉ ≤ i ∧ i < ⌈p - 2 * wp⌉ + (⌈p + 2 * wp⌉ - ⌈p - 2 * wp⌉))
      ↔ (p - 2 * wp ≤ (i : K) ∧ (i : K) < p + 2 * wp) := by
    rw [Int.ceil_le, add_sub_cancel, Int.lt_ceil]
  refine ⟨h1, h1.trans ?_⟩
  rw [le_div_iff₀ hwp, div_lt_iff₀ hwp]
  constructor
  · rintro ⟨ha, hb⟩
    exact ⟨by linarith, by linarith⟩
  · rintro ⟨ha, hb⟩
    exact ⟨by linarith, by linarith⟩

/-- The level `int(ceil(log2(1/w)))` of a width `0 < w ≤ 1`: it is non-negative, it is at
most `m` exactly when `2^-m ≤ w`, and the width in pixels at that level lies in
`[1, 2)`. -/
theorem level_spec (w : K) (h0 : 0 < w) (h1 : w ≤ 1) :
    0 ≤ toInt (ceilLog2 (1 / w))
    ∧ (∀ m : ℤ, toInt (ceilLog2 (1 / w)) ≤ m ↔ 1 / (2 : K) ^ m ≤ w)
    ∧ 1 / (2 : K) ^ toInt (ceilLog2 (1 / w)) ≤ w
    ∧ 1 ≤ w * (2 : K) ^ toInt (ceilLog2 (1 / w))
    ∧ w * (2 : K) ^ toInt (ceilLog2 (1 / w)) < 2 := by
  rw [toInt_ceilLog2]
  obtain ⟨hn, hp1, hp2⟩ := level_pixel_width w h0 h1
  have hiff : ∀ m : ℤ, Int.clog 2 (1 / w) ≤ m ↔ 1 / (2 : K) ^ m ≤ w := by
    intro m
    have h2 : (0 : K) < (2 : K) ^ m := by positivity
    rw [← Int.le_zpow_iff_clog_le (b := 2) (by norm_num) (by positivity : (0 : K) < 1 / w),
      Nat.cast_ofNat, div_le_iff₀ h0, div_le_iff₀ h2, mul_comm]
  have hz : (2 : K) ^ Int.clog 2 (1 / w)
      = (((2 : ℤ) ^ (Int.clog 2 (1 / w)).toNat : ℤ) : K) := by
    conv_lhs => rw [← Int.toNat_of_nonneg hn]
    rw [zpow_natCast]
    push_cast
    rfl
  rw [hz]
  refine ⟨hn, hiff, ?_, hp1, hp2⟩
  rw [← hz]
  exact (hiff _).1 le_rfl

/-- The weights of `PtexBoxFilter::computeWeights` for an extent `[u1, u2]`: they sum to
`u2 - u1`, and with two or three taps each lies in `(0, 1]`. -/
theorem box_coverage (u1 u2 : K) (hs1 : 1 ≤ toInt (ceil u2) - toInt (floor u1))
    (hs3 : toInt (ceil u2) - toInt (floor u1) ≤ 3) :
    ∃ l, PtexBoxFilter.computeWeights (toInt (ceil u2) - toInt (floor u1))
          (1 - (u1 - floor u1)) (1 - (ceil u2 - u2)) = some l
      ∧ l.length = (toInt (ceil u2) - toInt (floor u1)).toNat
      ∧ l.sum = u2 - u1
      ∧ (2 ≤ toInt (ceil u2) - toInt (floor u1) → ∀ x ∈ l, 0 < x ∧ x ≤ 1) := by
  have hf1 := Int.floor_le u1
  have hf2 := Int.lt_floor_add_one u1
  have hc1 := Int.le_ceil u2
  have hc2 := Int.ceil_lt_add_one u2
  have h1 : 0 < 1 - (u1 - floor u1) ∧ 1 - (u1 - floor u1) ≤ 1 := by
    unfold floor; constructor <;> linarith
  have h2 : 0 < 1 - (ceil u2 - u2) ∧ 1 - (ceil u2 - u2) ≤ 1 := by
    unfold ceil; constructor <;> linarith
  have hsum : 1 - (u1 - floor u1) + (1 - (ceil u2 - u2))
      + (((toInt (ceil u2) - toInt (floor u1) : ℤ) : K) - 2) = u2 - u1 := by
    rw [toInt_ceil, toInt_floor]
    unfold ceil floor
    push_cast
    ring
  obtain ⟨l, hl, hlen, hls⟩ := PtexBoxFilter.computeWeights_some
    (toInt (ceil u2) - toInt (floor u1)) (1 - (u1 - floor u1)) (1 - (ceil u2 - u2)) hs1 hs3
  refine ⟨l, hl, hlen, by rw [hls, hsum], ?_⟩
  intro h2le x hx
  have hs : toInt (ceil u2) - toInt (floor u1) = 2 ∨ toInt (ceil u2) - toInt (floor u1) = 3 := by
    omega
  rcases hs with hs | hs
  · rw [hs] at hl
    have hl2 : l = [1 - (u1 - floor u1), 1 - (ceil u2 - u2)] := by
      simpa [PtexBoxFilter.computeWeights] using hl.symm
    rw [hl2] at hx
    simp only [List.mem_cons, List.mem_singleton, List.not_mem_nil, or_false] at hx
    rcases hx with rfl | rfl
    · exact h1
    · exact h2
  · rw [hs] at hl
    have hl3 : l = [1 - (u1 - floor u1), 1, 1 - (ceil u2 - u2)] := by
      have : PtexBoxFilter.computeWeights 3 (1 - (u1 - floor u1)) (1 - (ceil u2 - u2))
          = some [1 - (u1 - floor u1), 1, 1 - (ceil u2 - u2)] := by
        simp [PtexBoxFilter.computeWeights, List.replicate]
        norm_num
      rw [this] at hl
      exact (Option.some.inj hl).symm
    rw [hl3] at hx
    simp only [List.mem_cons, List.mem_singleton, List.not_mem_nil, or_false] at hx
    rcases hx with rfl | rfl | rfl
    · exact h1
    · exact ⟨one_pos, le_rfl⟩
    · exact h2

/-- The extent `[5/4, 11/4]` has size 2. -/
theorem box_extent_example :
    toInt (ceil (11 / 4 : ℚ)) - toInt (floor (5 / 4 : ℚ)) = 2 := by
  rw [toInt_ceil, toInt_floor]
  norm_num [ceil_eq_neg_floor_neg]

/-- One axis of the box builder when the pixel width is 1 and the level is 0: the extent
is `[u - 1/2, u + 1/2]`. -/
theorem box_axis_unit (u a b : K) (ha : a = u - 1 / 2) (hb : b = u + 1 / 2) (h0 : 0 ≤ u)
    (h1 : u < 1) (ku kuw : ℤ) (l : List K) (hku : ku = ⌊a⌋) (hkuw : kuw = ⌈b⌉ - ku)
    (hl : PtexBoxFilter.computeWeights kuw (1 - (a - floor a)) (1 - (ceil b - b)) = some l) :
    (ku, kuw, l) = if u < 1 / 2 then ((-1 : ℤ), (2 : ℤ), [1 / 2 - u, 1 / 2 + u])
      else if u = 1 / 2 then ((0 : ℤ), (1 : ℤ), [1])
      else ((0 : ℤ), (2 : ℤ), [3 / 2 - u, u - 1 / 2]) := by
  subst ha hb
  rcases lt_trichotomy u (1 / 2) with h | h | h
  · have hf : ⌊u - 1 / 2⌋ = -1 := by
      rw [Int.floor_eq_iff]; constructor <;> push_cast <;> linarith
    have hc : ⌈u + 1 / 2⌉ = 1 := by
      rw [Int.ceil_eq_iff]; constructor <;> push_cast <;> linarith
    rw [hf] at hku
    rw [hc, hku] at hkuw
    subst hku
    have hk2 : kuw = 2 := by rw [hkuw]; norm_num
    subst hk2
    rw [if_pos h]
    simp only [PtexBoxFilter.computeWeights, floor, ceil, hf, hc] at hl
    norm_num at hl
    rw [← hl, add_comm u]
  · subst h
    have hf : ⌊(1 / 2 : K) - 1 / 2⌋ = 0 := by norm_num
    have hc : ⌈(1 / 2 : K) + 1 / 2⌉ = 1 := by norm_num
    rw [hf] at hku
    rw [hc, hku] at hkuw
    subst hku
    have hk1 : kuw = 1 := by rw [hkuw]; norm_num
    subst hk1
    rw [if_neg (lt_irrefl _), if_pos rfl]
    simp only [PtexBoxFilter.computeWeights, floor, ceil, hf, hc] at hl
    norm_num at hl
    rw [← hl]
  · have hf : ⌊u - 1 / 2⌋ = 0 := by
      rw [Int.floor_eq_iff]; constructor <;> push_cast <;> linarith
    have hc : ⌈u + 1 / 2⌉ = 2 := by
      rw [Int.ceil_eq_iff]; constructor <;> push_cast <;> linarith
    rw [hf] at hku
    rw [hc, hku] at hkuw
    subst hku
    have hk2 : kuw = 2 := by rw [hkuw]; norm_num
    subst hk2
    rw [if_neg (not_lt.2 h.le), if_neg (ne_of_gt h)]
    simp only [PtexBoxFilter.computeWeights, floor, ceil, hf, hc] at hl
    norm_num at hl
    rw [← hl]
    have e1 : 1 - (u - 1 / 2) = 3 / 2 - u := by ring
    have e2 : 1 - (2 - (u + 1 / 2)) = u - 1 / 2 := by ring
    rw [e1, e2]

end Lemmas

/-! ### Lemmas over the reals -/

section RealLemmas

/-- Over the reals `ceilLog2` is the ceiling of the base-2 logarithm. -/
theorem ceilLog2_eq_ceil_logb (x : ℝ) (hx : 0 < x) :
    ceilLog2 x = ((⌈Real.logb 2 x⌉ : ℤ) : ℝ) := by
  unfold ceilLog2
  have := Real.ceil_logb_natCast (b := 2) hx.le
  rw [← this]
  norm_num

theorem roundWidth_bounds : (0 : ℝ) ≤ PtexBilinearFilter.roundWidth
    ∧ (PtexBilinearFilter.roundWidth : ℝ) < 1 := by
  unfold PtexBilinearFilter.roundWidth
  constructor <;> norm_num

/-- The bilinear level decreases when the width grows. -/
theorem bilinear_reslog2_antitone {w1 w2 : ℝ} (h0 : 0 < w1) (h : w1 ≤ w2) :
    PtexBilinearFilter.reslog2 (Real.logb 2) PtexBilinearFilter.roundWidth w2
      ≤ PtexBilinearFilter.reslog2 (Real.logb 2) PtexBilinearFilter.roundWidth w1 := by
  unfold PtexBilinearFilter.reslog2
  apply toInt_mono
  have h2 : 0 < w2 := h0.trans_le h
  have := Real.logb_le_logb_of_le (b := 2) (by norm_num) (by positivity : (0 : ℝ) < 1 / w2)
    (one_div_le_one_div_of_le h0 h)
  linarith

/-- The bilinear level is at most `n ≥ 0` when the width is at least `2^-n`. -/
theorem bilinear_reslog2_le {w : ℝ} {n : ℤ} (hn : 0 ≤ n) (h0 : 0 < w)
    (h : 1 / (2 : ℝ) ^ n ≤ w) :
    PtexBilinearFilter.reslog2 (Real.logb 2) PtexBilinearFilter.roundWidth w ≤ n := by
  have h2 : (0 : ℝ) < (2 : ℝ) ^ n := by positivity
  have h1 : 1 / w ≤ (2 : ℝ) ^ n := by
    rw [div_le_iff₀ h0]
    rw [div_le_iff₀ h2] at h
    linarith
  have h3 : Real.logb 2 (1 / w) ≤ n := by
    rw [Real.logb_le_iff_le_rpow (by norm_num) (by positivity), Real.rpow_intCast]
    exact h1
  obtain ⟨hr0, hr1⟩ := roundWidth_bounds
  have h4 : Real.logb 2 (1 / w) + PtexBilinearFilter.roundWidth < ((n + 1 : ℤ) : ℝ) := by
    push_cast; linarith
  unfold PtexBilinearFilter.reslog2 toInt
  split_ifs with hx
  · have := Int.floor_lt.2 h4
    omega
  · have : ⌈Real.logb 2 (1 / w) + PtexBilinearFilter.roundWidth⌉ ≤ 0 :=
      Int.ceil_le.2 (by push_cast; exact le_of_lt (not_le.1 hx))
    omega

theorem list_range_map_sum (f : ℕ → ℝ) (n : ℕ) :
    ((List.range n).map f).sum = ∑ i in Finset.range n, f i := by
  induction n with
  | zero => simp
  | succ n ih => simp [List.range_succ, Finset.sum_range_succ, ih]

/-- Two consecutive entries bound the sum of a list of non-negative weights from below. -/
theorem pair_le_list_sum (f : ℕ → ℝ) (hf : ∀ i, 0 ≤ f i) (n i : ℕ) (hi : i + 1 < n) :
    f i + f (i + 1) ≤ ((List.range n).map f).sum := by
  rw [list_range_map_sum]
  have hsub : ({i, i + 1} : Finset ℕ) ⊆ Finset.range n := by
    intro j hj
    simp only [Finset.mem_insert, Finset.mem_singleton] at hj
    simp only [Finset.mem_range]
    omega
  have := Finset.sum_le_sum_of_subset_of_nonneg hsub (f := f) (fun j _ _ => hf j)
  rwa [Finset.sum_pair (by omega)] at this

theorem exp_neg_two_gt : (1 / 8 : ℝ) < Real.exp (-2) := by
  have h1 := Real.exp_one_lt_d9
  have h2 : Real.exp 2 = Real.exp 1 * Real.exp 1 := by rw [← Real.exp_add]; norm_num
  have h3 : Real.exp 2 < 8 := by
    rw [h2]
    have hp := Real.exp_pos 1
    nlinarith
  rw [Real.exp_neg, lt_inv_comm₀ (by norm_num) (Real.exp_pos 2)]
  norm_num
  linarith

theorem exp_neg_half_gt : (3 / 5 : ℝ) < Real.exp (-(1 / 2)) := by
  have h1 := Real.exp_one_lt_d9
  have h2 : Real.exp 1 = Real.exp (1 / 2) * Real.exp (1 / 2) := by
    rw [← Real.exp_add]; norm_num
  have hp := Real.exp_pos (1 / 2)
  have h3 : Real.exp (1 / 2) < 5 / 3 := by
    by_contra hc
    push_neg at hc
    nlinarith
  rw [Real.exp_neg, lt_inv_comm₀ (by norm_num) hp]
  norm_num
  linarith

/-- The gaussian kernel function at two points one unit apart around the centre:
`exp(-2 s^2) + exp(-2 (1-s)^2) > 1` for `0 ≤ s ≤ 1/2`. -/
theorem gauss_pair_half (s : ℝ) (h0 : 0 ≤ s) (h1 : s ≤ 1 / 2) :
    1 < Real.exp (-2 * s * s) + Real.exp (-2 * (1 - s) * (1 - s)) := by
  have ha : -2 * s * s + 1 ≤ Real.exp (-2 * s * s) := Real.add_one_le_exp _
  rcases le_total s (1 / 4) with hq | hq
  · have hb : Real.exp (-2) ≤ Real.exp (-2 * (1 - s) * (1 - s)) :=
      Real.exp_le_exp.2 (by nlinarith)
    have := exp_neg_two_gt
    nlinarith
  · have hsplit : Real.exp (-2 * (1 - s) * (1 - s))
        = Real.exp (-(1 / 2)) * Real.exp (1 / 2 - 2 * (1 - s) * (1 - s)) := by
      rw [← Real.exp_add]; congr 1; ring
    have hc : 1 / 2 - 2 * (1 - s) * (1 - s) + 1 ≤ Real.exp (1 / 2 - 2 * (1 - s) * (1 - s)) :=
      Real.add_one_le_exp _
    have hpos : 0 ≤ 1 / 2 - 2 * (1 - s) * (1 - s) + 1 := by nlinarith
    have he := exp_neg_half_gt
    have hb : 3 / 5 * (1 / 2 - 2 * (1 - s) * (1 - s) + 1) ≤ Real.exp (-2 * (1 - s) * (1 - s)) := by
      rw [hsplit]
      exact mul_le_mul he.le hc hpos (Real.exp_pos _).le
    nlinarith

theorem gauss_pair (s : ℝ) (h0 : 0 ≤ s) (h1 : s ≤ 1) :
    1 < Real.exp (-2 * s * s) + Real.exp (-2 * (1 - s) * (1 - s)) := by
  rcases le_total s (1 / 2) with h | h
  · exact gauss_pair_half s h0 h
  · have := gauss_pair_half (1 - s) (by linarith) (by linarith)
    rw [show 1 - (1 - s) = s by ring] at this
    linarith

theorem exp_sq_mono {x s : ℝ} (h : x * x ≤ s * s) :
    Real.exp (-2 * s * s) ≤ Real.exp (-2 * x * x) :=
  Real.exp_le_exp.2 (by nlinarith)

theorem sq_div_le {x wp : ℝ} (h1 : 1 ≤ wp) : x / wp * (x / wp) ≤ x * x := by
  have hwp2 : 1 ≤ wp * wp := by nlinarith
  have : x / wp * (x / wp) = x * x / (wp * wp) := by
    field_simp
  rw [this]
  exact div_le_self (mul_self_nonneg _) hwp2

/-- Two consecutive taps `j`, `j + 1` of a gaussian weight list that lie around the centre
`p` already sum to more than 1 when the pixel width is at least 1. -/
theorem gaussian_list_sum_gt (p wp : ℝ) (a b j : ℤ) (h1 : 1 ≤ wp) (hj0 : (j : ℝ) ≤ p)
    (hj1 : p ≤ (j : ℝ) + 1) (ha : a ≤ j) (hb : j + 1 < b) :
    1 < (PtexGaussianFilter.computeWeights Real.exp (((a : ℝ) - p) / wp) (1 / wp)
      (b - a)).sum := by
  have hwp0 : 0 < wp := by linarith
  have hi0 : (((j - a).toNat : ℕ) : ℤ) = j - a := Int.toNat_of_nonneg (by omega)
  have hi0r : (((j - a).toNat : ℕ) : ℝ) = (j : ℝ) - (a : ℝ) := by
    have := congrArg (Int.cast : ℤ → ℝ) hi0
    push_cast at this
    exact this
  have hlt : (j - a).toNat + 1 < (b - a).toNat := by omega
  have hpair := pair_le_list_sum
    (fun i : ℕ => PtexGaussianFilter.k Real.exp (((a : ℝ) - p) / wp + (i : ℝ) * (1 / wp)))
    (fun i => (Real.exp_pos _).le) _ _ hlt
  have hg := gauss_pair (p - j) (by linarith) (by linarith)
  have hx0 : ((a : ℝ) - p) / wp + (((j - a).toNat : ℕ) : ℝ) * (1 / wp) = -(p - j) / wp := by
    rw [hi0r]; field_simp
  have hx1 : ((a : ℝ) - p) / wp + (((j - a).toNat + 1 : ℕ) : ℝ) * (1 / wp)
      = (1 - (p - j)) / wp := by
    push_cast; rw [hi0r]; field_simp; ring
  have he0 := exp_sq_mono (sq_div_le (x := -(p - j)) h1)
  have he1 := exp_sq_mono (sq_div_le (x := 1 - (p - j)) h1)
  have hneg : -2 * -(p - ↑j) * -(p - ↑j) = -2 * (p - j) * (p - j) := by ring
  rw [hneg] at he0
  simp only [PtexGaussianFilter.k, hx0, hx1] at hpair
  unfold PtexGaussianFilter.computeWeights
  simp only [PtexGaussianFilter.k] at hpair ⊢
  linarith

/-- The weights the gaussian builder writes for an axis with pixel width at least 1 sum
to more than 1. -/
theorem PtexGaussianFilter.computeWeights_sum_gt (p wp : ℝ) (h1 : 1 ≤ wp) :
    1 < (PtexGaussianFilter.computeWeights Real.exp (((⌈p - 2 * wp⌉ : ℤ) - p) / wp) (1 / wp)
      (⌈p + 2 * wp⌉ - ⌈p - 2 * wp⌉)).sum := by
  have hfl := Int.floor_le p
  have hfl2 := Int.lt_floor_add_one p
  exact gaussian_list_sum_gt p wp _ _ ⌊p⌋ h1 hfl hfl2.le (Int.ceil_le.2 (by linarith))
    (Int.lt_ceil.2 (by push_cast; linarith))

theorem logb_two_four : Real.logb 2 4 = 2 := by
  have h : (4 : ℝ) = 2 ^ (2 : ℕ) := by norm_num
  rw [h, Real.logb_pow, Real.logb_self_eq_one (by norm_num)]
  norm_num

/-- The bilinear level of the width `1/4`, with the constant of the source, is 2. -/
theorem bilinear_reslog2_quarter :
    PtexBilinearFilter.reslog2 (Real.logb 2) PtexBilinearFilter.roundWidth (1 / 4 : ℝ) = 2 := by
  unfold PtexBilinearFilter.reslog2 PtexBilinearFilter.roundWidth toInt
  rw [one_div_one_div, logb_two_four]
  norm_num

theorem logb_two_eight : Real.logb 2 8 = 3 := by
  have h : (8 : ℝ) = 2 ^ (3 : ℕ) := by norm_num
  rw [h, Real.logb_pow, Real.logb_self_eq_one (by norm_num)]
  norm_num

/-- Bounds on `log2(1/0.3)`. -/
theorem logb_two_inv_three_tenths :
    3 / 2 ≤ Real.logb 2 (1 / (0.3 : ℝ)) ∧ Real.logb 2 (1 / (0.3 : ℝ)) < 2 := by
  have hx : (1 / (0.3 : ℝ)) = 10 / 3 := by norm_num
  rw [hx]
  constructor
  · have h1 : Real.logb 2 8 ≤ Real.logb 2 ((10 / 3 : ℝ) ^ (2 : ℕ)) :=
      Real.logb_le_logb_of_le (by norm_num) (by norm_num) (by norm_num)
    rw [Real.logb_pow, logb_two_eight] at h1
    push_cast at h1
    linarith
  · have h2 : Real.logb 2 (10 / 3 : ℝ) < Real.logb 2 4 :=
      Real.logb_lt_logb (by norm_num) (by norm_num) (by norm_num)
    rwa [logb_two_four] at h2

/-- The bilinear level of the width `0.3`, with the constant of the source, is 2. -/
theorem bilinear_reslog2_three_tenths :
    PtexBilinearFilter.reslog2 (Real.logb 2) PtexBilinearFilter.roundWidth (0.3 : ℝ) = 2 := by
  obtain ⟨h1, h2⟩ := logb_two_inv_three_tenths
  unfold PtexBilinearFilter.reslog2 PtexBilinearFilter.roundWidth toInt
  rw [if_pos (by norm_num at h1 ⊢; linarith), Int.floor_eq_iff]
  constructor
  · norm_num at h1 ⊢; linarith
  · norm_num at h2 ⊢; linarith

end RealLemmas

/-! ### Bicubic coefficients -/

section Coefficients

variable (S : K)

theorem new_filter_0 : (PtexBicubicFilter.new S)._filter 0 = 1.5 - (1 - S) := rfl
theorem new_filter_1 : (PtexBicubicFilter.new S)._filter 1 = 1.5 * (1 - S) - 2.5 := rfl
theorem new_filter_2 : (PtexBicubicFilter.new S)._filter 2 = 1 - (1 / 3) * (1 - S) := rfl
theorem new_filter_3 : (PtexBicubicFilter.new S)._filter 3 = (1 / 3) * (1 - S) - 0.5 := rfl
theorem new_filter_4 : (PtexBicubicFilter.new S)._filter 4 = 2.5 - 1.5 * (1 - S) := rfl
theorem new_filter_5 : (PtexBicubicFilter.new S)._filter 5 = 2 * (1 - S) - 4 := rfl
theorem new_filter_6 : (PtexBicubicFilter.new S)._filter 6 = 2 - (2 / 3) * (1 - S) := rfl

end Coefficients

/-- The kernel function with the constructor's coefficients, against the piecewise cubic
of the specification. -/
theorem PtexBicubicFilter.k_new (S x : K) :
    (PtexBicubicFilter.new S).k x = specCubic (1 - S) ((1 - (1 - S)) / 2) x := by
  unfold PtexBicubicFilter.k specCubic
  simp only [new_filter_0, new_filter_1, new_filter_2, new_filter_3, new_filter_4,
    new_filter_5, new_filter_6]
  split_ifs <;> ring

/-- Partition of unity of the bicubic kernel function on the four unit shifts. -/
theorem PtexBicubicFilter.k_partition (S t : K) (h0 : 0 ≤ t) (h1 : t < 1) :
    (PtexBicubicFilter.new S).k (t - 2) + (PtexBicubicFilter.new S).k (t - 1)
      + (PtexBicubicFilter.new S).k t + (PtexBicubicFilter.new S).k (t + 1) = 1 := by
  have a1 : |t - 2| = 2 - t := by rw [abs_of_nonpos (by linarith)]; ring
  have a2 : |t - 1| = 1 - t := by rw [abs_of_nonpos (by linarith)]; ring
  have a3 : |t| = t := abs_of_nonneg h0
  have a4 : |t + 1| = t + 1 := abs_of_nonneg (by linarith)
  simp only [PtexBicubicFilter.k, a1, a2, a3, a4, new_filter_0, new_filter_1, new_filter_2,
    new_filter_3, new_filter_4, new_filter_5, new_filter_6]
  rcases eq_or_lt_of_le h0 with h | h
  · subst h
    norm_num
    ring
  · split_ifs <;> first | (exfalso; linarith) | ring

theorem bspline_eq_new : (bspline : PtexBicubicFilter K) = PtexBicubicFilter.new 0 := by
  unfold bspline; norm_num

theorem catmullrom_eq_new : (catmullrom : PtexBicubicFilter K) = PtexBicubicFilter.new 1 := by
  unfold catmullrom; norm_num

/-- The Catmull-Rom kernel function at the integers. -/
theorem catmullrom_k_int (n : ℤ) :
    (PtexBicubicFilter.new (1 : K)).k (n : K) = if n = 0 then 1 else 0 := by
  have hcast : |(n : K)| = ((|n| : ℤ) : K) := by push_cast; rfl
  unfold PtexBicubicFilter.k
  simp only [new_filter_0, new_filter_1, new_filter_2, new_filter_3,
    new_filter_4, new_filter_5, new_filter_6]
  rcases eq_or_ne n 0 with h0 | h0
  · subst h0
    norm_num
  · rw [if_neg h0]
    have hpos : 1 ≤ |n| := Int.one_le_abs h0
    rcases eq_or_lt_of_le hpos with h1 | h1
    · have habs : |(n : K)| = 1 := by rw [hcast, ← h1]; norm_num
      rw [habs]
      norm_num
    · have h2 : (2 : K) ≤ |(n : K)| := by
        rw [hcast]
        have : (2 : ℤ) ≤ |n| := by omega
        exact_mod_cast this
      rw [if_neg (by linarith), if_neg (by linarith)]

/-- The bicubic kernel function vanishes outside `(-2, 2)`. -/
theorem PtexBicubicFilter.k_eq_zero (f : PtexBicubicFilter K) {x : K} (h : 2 ≤ |x|) :
    f.k x = 0 := by
  unfold PtexBicubicFilter.k
  simp only
  rw [if_neg (by linarith), if_neg (by linarith)]

section BicubicLemmas

variable [FloorRing K]

theorem ceil_add_four (p : K) : ⌈p + 2⌉ - ⌈p - 2⌉ = 4 := by
  have h : p + 2 = p - 2 + ((4 : ℤ) : K) := by push_cast; ring
  rw [h, Int.ceil_add_int]
  ring

/-- With a unit pixel width the bicubic builder writes four weights whose sum is 1. -/
theorem PtexBicubicFilter.computeWeights_unit (S p : K) :
    ((PtexBicubicFilter.new S).computeWeights (((⌈p - 2 * 1⌉ : ℤ) - p) / 1) (1 / 1)
      (⌈p + 2 * 1⌉ - ⌈p - 2 * 1⌉)).sum = 1 := by
  have h4 : ⌈p + 2 * 1⌉ - ⌈p - 2 * 1⌉ = 4 := by
    rw [mul_one]; exact ceil_add_four p
  have hlo := Int.le_ceil (p - 2)
  have hhi := Int.ceil_lt_add_one (p - 2)
  rw [h4]
  have := PtexBicubicFilter.k_partition S ((⌈p - 2⌉ : K) - p + 2) (by linarith) (by linarith)
  simp only [PtexBicubicFilter.computeWeights, mul_one, div_one]
  have h4n : (4 : ℤ).toNat = 4 := rfl
  rw [h4n]
  simp only [List.range_succ, List.range_zero, List.nil_append, List.map_append, List.map_cons,
    List.map_nil, List.sum_append, List.sum_cons, List.sum_nil, List.cons_append]
  rw [← this]
  push_cast
  ring_nf

/-- The B-spline builder with `uw = 1/8` on a 16 x 16 face has pixel width 1. -/
theorem bspline_unit_width_example :
    min (max (1 / 8 : ℚ) (1 / (((⟨4, 4⟩ : Res).u : ℤ) : ℚ))) (if false = true then 0.25 else 0.125)
      * ((((PtexBicubicFilter.new (0 : ℚ)).buildKernel (1 / 2) (1 / 2) (1 / 8) (1 / 8)
          ⟨4, 4⟩ false).res.u : ℤ) : ℚ) = 1 := by
  have h4 : (4 : ℤ).toNat = 4 := rfl
  have h3 : (3 : ℤ).toNat = 3 := rfl
  have hw : min (max (1 / 8 : ℚ) (1 / (((2 : ℤ) ^ 4 : ℤ) : ℚ)))
      (if false = true then 0.25 else 0.125) = 1 / 8 := by norm_num
  have hclog : Int.clog 2 (1 / (1 / 8 : ℚ)) = 3 := clog_two_eq (by norm_num) (by norm_num)
  simp only [PtexBicubicFilter.buildKernel, toInt_ceilLog2, Res.u, h4, hw, hclog, h3]
  norm_num

end BicubicLemmas

/-! ## Claims -/

/-- C3: for every sharpness `S` and every `x`, the kernel function `k` with the
constructor's coefficients is the specified piecewise cubic with `B = 1 - S` and
`C = (1 - B) / 2`. -/
theorem bicubic_k_eq_specCubic (S x : K) :
    (PtexBicubicFilter.new S).k x = specCubic (1 - S) ((1 - (1 - S)) / 2) x :=
  PtexBicubicFilter.k_new S x

/-- C4: the factory presets build the documented coefficients exactly: `bspline` is
`bicubic 0` with coefficients `(1/2, -1, 2/3, -1/6, 1, -2, 4/3)`, `catmullrom` is
`bicubic 1` with coefficients `(3/2, -5/2, 1, -1/2, 5/2, -4, 2)`, `mitchell` is
`bicubic (2/3)`, whose kernel is the specified cubic with `B = C = 1/3`; the
4-decimal values of the specification are the exact ones rounded. -/
theorem presets_coefficients :
    (bspline : PtexBicubicFilter K) = bicubic 0
    ∧ (∀ i, (bspline : PtexBicubicFilter K)._filter i
        = ![1 / 2, -1, 2 / 3, -1 / 6, 1, -2, 4 / 3] i)
    ∧ (catmullrom : PtexBicubicFilter K) = bicubic 1
    ∧ (∀ i, (catmullrom : PtexBicubicFilter K)._filter i
        = ![3 / 2, -5 / 2, 1, -1 / 2, 5 / 2, -4, 2] i)
    ∧ (mitchell : PtexBicubicFilter K) = bicubic (2 / 3)
    ∧ (1 - (2 / 3 : K) = 1 / 3 ∧ (1 - (1 - (2 / 3 : K))) / 2 = 1 / 3)
    ∧ (∀ x, (mitchell : PtexBicubicFilter K).k x = specCubic (1 / 3) (1 / 3) x)
    ∧ |(bspline : PtexBicubicFilter K)._filter 2 - 0.6667| ≤ 0.00005
    ∧ |(bspline : PtexBicubicFilter K)._filter 3 - (-0.1667)| ≤ 0.00005
    ∧ |(bspline : PtexBicubicFilter K)._filter 6 - 1.333| ≤ 0.0005 := by
  have hb : (bspline : PtexBicubicFilter K) = PtexBicubicFilter.new 0 := by
    unfold bspline; norm_num
  have hc : (catmullrom : PtexBicubicFilter K) = PtexBicubicFilter.new 1 := by
    unfold catmullrom; norm_num
  have hm : (mitchell : PtexBicubicFilter K) = PtexBicubicFilter.new (2 / 3) := by
    unfold mitchell; norm_num
  refine ⟨hb, ?_, hc, ?_, hm, ⟨by norm_num, by norm_num⟩, ?_, ?_, ?_, ?_⟩
  · intro i
    rw [hb]
    fin_cases i <;> simp [PtexBicubicFilter.new] <;> norm_num
  · intro i
    rw [hc]
    fin_cases i <;> simp [PtexBicubicFilter.new] <;> norm_num
  · intro x
    rw [hm, PtexBicubicFilter.k_new]
    norm_num
  · rw [hb, new_filter_2, abs_le]; constructor <;> norm_num
  · rw [hb, new_filter_3, abs_le]; constructor <;> norm_num
  · rw [hb, new_filter_6, abs_le]; constructor <;> norm_num

/-- C11: the Catmull-Rom preset (`S = 1`) is interpolating, `k 0 = 1` and `k n = 0` at
every non-zero integer `n`; the B-spline preset (`S = 0`) is not, `k 0 = 2/3` and
`k 1 = k (-1) = 1/6`. -/
theorem presets_interpolation :
    (catmullrom : PtexBicubicFilter K).k 0 = 1
    ∧ (∀ n : ℤ, (catmullrom : PtexBicubicFilter K).k (n : K) = if n = 0 then 1 else 0)
    ∧ (bspline : PtexBicubicFilter K).k 0 = 2 / 3
    ∧ (bspline : PtexBicubicFilter K).k 1 = 1 / 6
    ∧ (bspline : PtexBicubicFilter K).k (-1) = 1 / 6 := by
  rw [bspline_eq_new, catmullrom_eq_new]
  refine ⟨?_, catmullrom_k_int, ?_, ?_, ?_⟩
  · have := catmullrom_k_int (K := K) 0
    simpa using this
  · simp only [PtexBicubicFilter.k, new_filter_2]
    norm_num
  · simp only [PtexBicubicFilter.k, new_filter_3, new_filter_4, new_filter_5, new_filter_6]
    norm_num
  · simp only [PtexBicubicFilter.k, new_filter_3, new_filter_4, new_filter_5, new_filter_6]
    norm_num

/-- C20: for every sharpness `S` the kernel function `k` is even, is 0 for `|x| ≥ 2`, and
its two cubic pieces join continuously: with `B = 1 - S`, the inner piece
`c0 + c1 + c2` and the outer piece `c3 + c4 + c5 + c6` both equal `B / 6` at `|x| = 1`
(which is the value `k 1`), and the outer piece `8 c3 + 4 c4 + 2 c5 + c6` equals 0 at
`|x| = 2` (which is the value `k 2`). -/
theorem bicubic_k_shape (S x : K) :
    (PtexBicubicFilter.new S).k (-x) = (PtexBicubicFilter.new S).k x
    ∧ (2 ≤ |x| → (PtexBicubicFilter.new S).k x = 0)
    ∧ (PtexBicubicFilter.new S)._filter 0 + (PtexBicubicFilter.new S)._filter 1
        + (PtexBicubicFilter.new S)._filter 2 = (1 - S) / 6
    ∧ (PtexBicubicFilter.new S)._filter 3 + (PtexBicubicFilter.new S)._filter 4
        + (PtexBicubicFilter.new S)._filter 5 + (PtexBicubicFilter.new S)._filter 6
        = (1 - S) / 6
    ∧ 8 * (PtexBicubicFilter.new S)._filter 3 + 4 * (PtexBicubicFilter.new S)._filter 4
        + 2 * (PtexBicubicFilter.new S)._filter 5 + (PtexBicubicFilter.new S)._filter 6 = 0
    ∧ (PtexBicubicFilter.new S).k 1 = (1 - S) / 6
    ∧ (PtexBicubicFilter.new S).k 2 = 0 := by
  refine ⟨?_, PtexBicubicFilter.k_eq_zero _, ?_, ?_, ?_, ?_, ?_⟩
  · unfold PtexBicubicFilter.k
    simp only [abs_neg]
  · rw [new_filter_0, new_filter_1, new_filter_2]; ring
  · rw [new_filter_3, new_filter_4, new_filter_5, new_filter_6]; ring
  · rw [new_filter_3, new_filter_4, new_filter_5, new_filter_6]; ring
  · simp only [PtexBicubicFilter.k, new_filter_3, new_filter_4, new_filter_5, new_filter_6]
    norm_num
    ring
  · exact PtexBicubicFilter.k_eq_zero _ (by norm_num)

/-- C20 (witness): the Mitchell sharpness `2/3` at `x = 3`. -/
theorem bicubic_k_shape_witness :
    (2 : ℚ) ≤ |3| ∧ (PtexBicubicFilter.new (2 / 3 : ℚ)).k 3 = 0 :=
  ⟨by norm_num, (bicubic_k_shape (2 / 3 : ℚ) 3).2.1 (by norm_num)⟩

section Claims

variable [FloorRing K]

/-- C1 (counterexample): with `u = v = 1/2`, `uw = vw = 3/8` on a 16 x 16 face the level
is 2, the pixel width is `3/2`, and the two weights written for the u axis are
`3/4, 3/4`, whose sum is not 1. -/
theorem box_weights_sum_counterexample :
    (0 : ℚ) ≤ 1 / 2 ∧ (1 / 2 : ℚ) < 1 ∧ (0 : ℚ) < 3 / 8 ∧ 1 ≤ (⟨4, 4⟩ : Res).u
    ∧ ∃ k, PtexBoxFilter.buildKernel (1 / 2 : ℚ) (1 / 2) (3 / 8) (3 / 8) ⟨4, 4⟩ false = some k
        ∧ k.ku = [3 / 4, 3 / 4] ∧ k.ku.sum ≠ 1 := by
  have h4 : (4 : ℤ).toNat = 4 := rfl
  have h2 : (2 : ℤ).toNat = 2 := rfl
  have hw : max (min (3 / 8 : ℚ) 1.0) (1 / (((2 : ℤ) ^ 4 : ℤ) : ℚ)) = 3 / 8 := by norm_num
  have hclog : Int.clog 2 (1 / (3 / 8 : ℚ)) = 2 := clog_two_eq (by norm_num) (by norm_num)
  refine ⟨by norm_num, by norm_num, by norm_num, by simp [Res.u], 
    ⟨⟨2, 2⟩, 1, 1, 2, 2, [3 / 4, 3 / 4], [3 / 4, 3 / 4]⟩, ?_, rfl, by norm_num⟩
  simp only [PtexBoxFilter.buildKernel, toInt_ceil, toInt_floor, toInt_ceilLog2, Res.u, Res.v,
    h4, hw, hclog, h2]
  norm_num [PtexBoxFilter.computeWeights, ceil, floor, ceil_eq_neg_floor_neg]

/-- C1 (amended): the weights `PtexBoxFilter::buildKernel` writes for an axis sum to the
filter width in pixels at the chosen level, `w * R` for the clamped width `w`; the sum
lies in `[1, 2)` and it is exactly 1 if and only if the clamped width is a reciprocal
power of two. -/
theorem box_weights_sum (u v uw vw : K) (faceRes : Res) (sub : Bool) :
    ∃ k, PtexBoxFilter.buildKernel u v uw vw faceRes sub = some k
      ∧ k.ku.sum = max (min uw 1.0) (1 / (faceRes.u : K)) * (k.res.u : K)
      ∧ 1 ≤ k.ku.sum ∧ k.ku.sum < 2
      ∧ (k.ku.sum = 1 ↔ ∃ n : ℕ, max (min uw 1.0) (1 / (faceRes.u : K)) = 1 / 2 ^ n)
      ∧ k.kv.sum = max (min vw 1.0) (1 / (faceRes.v : K)) * (k.res.v : K)
      ∧ 1 ≤ k.kv.sum ∧ k.kv.sum < 2
      ∧ (k.kv.sum = 1 ↔ ∃ n : ℕ, max (min vw 1.0) (1 / (faceRes.v : K)) = 1 / 2 ^ n) := by
  obtain ⟨k, hk, hlu, hlv, hu1, hu2, hv1, hv2, -, -, -, -, -, -, hsu, hsv, -⟩ :=
    box_buildKernel_spec u v uw vw faceRes sub
  obtain ⟨hu0, -, -, -⟩ := clamp_box uw faceRes
  obtain ⟨-, -, hv0, -⟩ := clamp_box vw faceRes
  refine ⟨k, hk, hsu, by rw [hsu]; exact hu1, by rw [hsu]; exact hu2, ?_, hsv,
    by rw [hsv]; exact hv1, by rw [hsv]; exact hv2, ?_⟩
  · have hR : k.res.u = (2 : ℤ) ^ (Int.clog 2 (1 / max (min uw 1.0) (1 / (faceRes.u : K)))).toNat := by
      rw [← hlu]; rfl
    rw [hsu, hR]
    exact pixel_width_eq_one_iff _ hu0
  · have hR : k.res.v = (2 : ℤ) ^ (Int.clog 2 (1 / max (min vw 1.0) (1 / (faceRes.v : K)))).toNat := by
      rw [← hlv]; rfl
    rw [hsv, hR]
    exact pixel_width_eq_one_iff _ hv0

/-- C5: the assertion of `PtexBoxFilter::computeWeights` never fails: for every sample
centre, every filter width and every face resolution `buildKernel` returns a kernel,
and its tap counts `k.uw = ceil(u2) - floor(u1)` and `k.vw = ceil(v2) - floor(v1)`,
where `u1 = u * R - 0.5 * (w * R)` and `u2 = u * R + 0.5 * (w * R)` for the clamped
width `w` and the pixel dimension `R` of the level `ceil(log2(1/w))`, are 1, 2 or 3. -/
theorem box_support_size (u v uw vw : K) (faceRes : Res) (sub : Bool) :
    ∃ (k : PtexSeparableKernel K) (wu wv : K),
      PtexBoxFilter.buildKernel u v uw vw faceRes sub = some k
      ∧ wu = max (min uw 1.0) (1 / (faceRes.u : K))
      ∧ wv = max (min vw 1.0) (1 / (faceRes.v : K))
      ∧ k.res.ulog2 = Int.clog 2 (1 / wu) ∧ k.res.vlog2 = Int.clog 2 (1 / wv)
      ∧ k.uw = ⌈u * (k.res.u : K) + 0.5 * (wu * (k.res.u : K))⌉
          - ⌊u * (k.res.u : K) - 0.5 * (wu * (k.res.u : K))⌋
      ∧ k.vw = ⌈v * (k.res.v : K) + 0.5 * (wv * (k.res.v : K))⌉
          - ⌊v * (k.res.v : K) - 0.5 * (wv * (k.res.v : K))⌋
      ∧ (k.uw = 1 ∨ k.uw = 2 ∨ k.uw = 3) ∧ (k.vw = 1 ∨ k.vw = 2 ∨ k.vw = 3) := by
  obtain ⟨k, hk, hlu, hlv, -, -, -, -, hu1, hu3, hv1, hv3, -, -, -, -, hku, hkv, hkuw, hkvw, -⟩ :=
    box_buildKernel_spec u v uw vw faceRes sub
  refine ⟨k, _, _, hk, rfl, rfl, hlu, hlv, ?_, ?_, by omega, by omega⟩
  · rw [hkuw, hku]
  · rw [hkvw, hkv]

/-- C2: for every `u`, `v`, every filter width and every face resolution (and whatever the
library `log2` returns), the kernel `k` of `PtexBilinearFilter::buildKernel` has 2 taps
per axis, the origin `floor(p)` with `p = u * R - 0.5` and `R` the pixel dimension of
the chosen level, and the weights `(1 - frac, frac)` with `frac = p - floor(p)`, where
`0 ≤ frac < 1` and the two weights sum to exactly 1; likewise for `v`. -/
theorem bilinear_kernel (log2 : K → K) (u v uw vw : K) (faceRes : Res) (sub : Bool) :
    ∃ (k : PtexSeparableKernel K) (pu fu pv fv : K),
      k = PtexBilinearFilter.buildKernel log2 u v uw vw faceRes sub
      ∧ k.res.ulog2 = PtexBilinearFilter.reslog2 log2 PtexBilinearFilter.roundWidth
          (max (min uw 1.0) (1 / (faceRes.u : K)))
      ∧ k.res.vlog2 = PtexBilinearFilter.reslog2 log2 PtexBilinearFilter.roundWidth
          (max (min vw 1.0) (1 / (faceRes.v : K)))
      ∧ pu = u * (k.res.u : K) - 0.5 ∧ fu = pu - ((⌊pu⌋ : ℤ) : K)
      ∧ pv = v * (k.res.v : K) - 0.5 ∧ fv = pv - ((⌊pv⌋ : ℤ) : K)
      ∧ k.uw = 2 ∧ k.vw = 2 ∧ k.u = ⌊pu⌋ ∧ k.v = ⌊pv⌋
      ∧ k.ku = [1 - fu, fu] ∧ k.kv = [1 - fv, fv]
      ∧ 0 ≤ fu ∧ fu < 1 ∧ 0 ≤ fv ∧ fv < 1
      ∧ k.ku.sum = 1 ∧ k.kv.sum = 1 := by
  refine ⟨_, _, _, _, _, rfl, rfl, rfl, rfl, rfl, rfl, rfl, rfl, rfl, toInt_floor _,
    toInt_floor _, rfl, rfl, ?_, ?_, ?_, ?_, ?_, ?_⟩
  · exact sub_nonneg.2 (Int.floor_le _)
  · exact sub_lt_iff_lt_add'.2 (Int.lt_floor_add_one _)
  · exact sub_nonneg.2 (Int.floor_le _)
  · exact sub_lt_iff_lt_add'.2 (Int.lt_floor_add_one _)
  · simp [PtexBilinearFilter.buildKernel]
  · simp [PtexBilinearFilter.buildKernel]

/-- C8: for the bicubic and gaussian builders, for every sample centre, filter width,
subface flag and face resolution (whatever the coefficients and whatever the library
`exp` returns), the tap counts satisfy `4 ≤ k.uw ≤ 8` and `4 ≤ k.vw ≤ 8`, hence are at
least 1, and `k.ku`, `k.kv` hold that many weights. -/
theorem cubic_gaussian_tap_count (f : PtexBicubicFilter K) (exp : K → K) (u v uw vw : K)
    (faceRes : Res) (sub : Bool) :
    (∃ k, k = f.buildKernel u v uw vw faceRes sub
      ∧ 1 ≤ k.uw ∧ 4 ≤ k.uw ∧ k.uw ≤ 8 ∧ 1 ≤ k.vw ∧ 4 ≤ k.vw ∧ k.vw ≤ 8
      ∧ k.ku.length = k.uw.toNat ∧ k.kv.length = k.vw.toNat)
    ∧ (∃ k, k = PtexGaussianFilter.buildKernel exp u v uw vw faceRes sub
      ∧ 1 ≤ k.uw ∧ 4 ≤ k.uw ∧ k.uw ≤ 8 ∧ 1 ≤ k.vw ∧ 4 ≤ k.vw ∧ k.vw ≤ 8
      ∧ k.ku.length = k.uw.toNat ∧ k.kv.length = k.vw.toNat) := by
  constructor
  · obtain ⟨k, wu, wv, pu, pv, wpu, wpv, hk, -, -, -, -, -, -, -, -, -, -, -, -, -, -, -, -,
      hu4, hu8, hv4, hv8, hku, hkv⟩ := bicubic_buildKernel_spec f u v uw vw faceRes sub
    refine ⟨k, hk, by omega, hu4, hu8, by omega, hv4, hv8, ?_, ?_⟩
    · rw [hku]; simp [PtexBicubicFilter.computeWeights]
    · rw [hkv]; simp [PtexBicubicFilter.computeWeights]
  · obtain ⟨k, wu, wv, pu, pv, wpu, wpv, hk, -, -, -, -, -, -, -, -, -, -, -, -, -, -, -, -,
      hu4, hu8, hv4, hv8, hku, hkv⟩ :=
      gaussian_buildKernel_spec exp u v uw vw faceRes sub
    refine ⟨k, hk, by omega, hu4, hu8, by omega, hv4, hv8, ?_, ?_⟩
    · rw [hku]; simp [PtexGaussianFilter.computeWeights]
    · rw [hkv]; simp [PtexGaussianFilter.computeWeights]

/-- C7 (counterexample): the bicubic builder on a 1 x 1 face (`L = 0`) with `uw = vw = 1/2`,
not a subface: the lower clamp gives 1, the upper clamp then gives `1/8`, which is less
than one native texel, and the chosen level is 3, which exceeds `L = 0`. -/
theorem level_exceeds_native_counterexample :
    (0 : ℚ) < 1 / 2 ∧ (⟨0, 0⟩ : Res).u = 1
    ∧ min (max (1 / 2 : ℚ) (1 / (((⟨0, 0⟩ : Res).u : ℤ) : ℚ))) (if false = true then 0.25 else 0.125)
        = 1 / 8
    ∧ ((bspline : PtexBicubicFilter ℚ).buildKernel (1 / 2) (1 / 2) (1 / 2) (1 / 2)
        ⟨0, 0⟩ false).res.ulog2 = 3
    ∧ ¬ ((bspline : PtexBicubicFilter ℚ).buildKernel (1 / 2) (1 / 2) (1 / 2) (1 / 2)
        ⟨0, 0⟩ false).res.ulog2 ≤ (⟨0, 0⟩ : Res).ulog2 := by
  have h0 : (0 : ℤ).toNat = 0 := rfl
  have hw : min (max (1 / 2 : ℚ) (1 / (((2 : ℤ) ^ 0 : ℤ) : ℚ)))
      (if false = true then 0.25 else 0.125) = 1 / 8 := by norm_num
  have hclog : Int.clog 2 (1 / (1 / 8 : ℚ)) = 3 := clog_two_eq (by norm_num) (by norm_num)
  have hl : ((bspline : PtexBicubicFilter ℚ).buildKernel (1 / 2) (1 / 2) (1 / 2) (1 / 2)
      ⟨0, 0⟩ false).res.ulog2 = 3 := by
    simp only [PtexBicubicFilter.buildKernel, toInt_ceilLog2, Res.u, h0, hw, hclog]
  refine ⟨by norm_num, rfl, ?_, hl, ?_⟩
  · simp only [Res.u, h0, hw]
  · rw [hl]; decide

/-- C10 (counterexample): the B-spline preset (`S = 0`) with `u = v = 1/2`,
`uw = vw = 3/32` on a 16 x 16 face: the level is 4, the pixel width is `3/2`, six
weights are written for the u axis and their sum is `121/81`, not 1. -/
theorem bicubic_weights_sum_counterexample :
    (0 : ℚ) ≤ 0 ∧ (0 : ℚ) ≤ 1 ∧ (0 : ℚ) ≤ 1 / 2 ∧ (1 / 2 : ℚ) < 1 ∧ (0 : ℚ) < 3 / 32
    ∧ 1 ≤ (⟨4, 4⟩ : Res).u
    ∧ ((PtexBicubicFilter.new (0 : ℚ)).buildKernel (1 / 2) (1 / 2) (3 / 32) (3 / 32)
        ⟨4, 4⟩ false).ku = [1 / 162, 1 / 6, 31 / 54, 31 / 54, 1 / 6, 1 / 162]
    ∧ ((PtexBicubicFilter.new (0 : ℚ)).buildKernel (1 / 2) (1 / 2) (3 / 32) (3 / 32)
        ⟨4, 4⟩ false).ku.sum ≠ 1 := by
  have h4 : (4 : ℤ).toNat = 4 := rfl
  have hw : min (max (3 / 32 : ℚ) (1 / (((2 : ℤ) ^ 4 : ℤ) : ℚ)))
      (if false = true then 0.25 else 0.125) = 3 / 32 := by norm_num
  have hclog : Int.clog 2 (1 / (3 / 32 : ℚ)) = 4 := clog_two_eq (by norm_num) (by norm_num)
  have h6 : (6 : ℤ).toNat = 6 := rfl
  have hk : ((PtexBicubicFilter.new (0 : ℚ)).buildKernel (1 / 2) (1 / 2) (3 / 32) (3 / 32)
        ⟨4, 4⟩ false).ku = [1 / 162, 1 / 6, 31 / 54, 31 / 54, 1 / 6, 1 / 162] := by
    simp only [PtexBicubicFilter.buildKernel, toInt_ceil, toInt_ceilLog2, Res.u, h4, hw, hclog]
    norm_num [PtexBicubicFilter.computeWeights, PtexBicubicFilter.k, ceil_eq_neg_floor_neg,
      h6, List.range_succ, new_filter_0, new_filter_1, new_filter_2, new_filter_3,
      new_filter_4, new_filter_5, new_filter_6, abs_of_nonneg, abs_of_nonpos]
  refine ⟨le_rfl, by norm_num, by norm_num, by norm_num, by norm_num, by simp [Res.u], hk, ?_⟩
  rw [hk]
  norm_num

/-- C10 (amended): for every sharpness, sample centre, filter width, subface flag and
face resolution, whenever the clamped filter width of an axis is a reciprocal power of
two (the pixel width at the chosen level is then 1), `PtexBicubicFilter::buildKernel`
writes four weights for that axis and they sum to exactly 1. -/
theorem bicubic_weights_sum_unit (S u v uw vw : K) (faceRes : Res) (sub : Bool) :
    ((∃ n : ℕ, min (max uw (1 / (faceRes.u : K))) (if sub = true then 0.25 else 0.125)
          = 1 / 2 ^ n) →
        ((PtexBicubicFilter.new S).buildKernel u v uw vw faceRes sub).uw = 4
        ∧ ((PtexBicubicFilter.new S).buildKernel u v uw vw faceRes sub).ku.sum = 1)
    ∧ ((∃ n : ℕ, min (max vw (1 / (faceRes.v : K))) (if sub = true then 0.25 else 0.125)
          = 1 / 2 ^ n) →
        ((PtexBicubicFilter.new S).buildKernel u v uw vw faceRes sub).vw = 4
        ∧ ((PtexBicubicFilter.new S).buildKernel u v uw vw faceRes sub).kv.sum = 1) := by
  obtain ⟨hu0, -, -, -⟩ := clamp_cubic uw faceRes sub
  obtain ⟨-, -, hv0, -⟩ := clamp_cubic vw faceRes sub
  obtain ⟨k, wu, wv, pu, pv, wpu, wpv, rfl, rfl, rfl, hlu, hlv, rfl, rfl, hwpu, hwpv, -, -, -, -,
    hku, hkv, hkuw, hkvw, -, -, -, -, hwu, hwv⟩ :=
    bicubic_buildKernel_spec (PtexBicubicFilter.new S) u v uw vw faceRes sub
  constructor
  · intro hn
    have hR : ((PtexBicubicFilter.new S).buildKernel u v uw vw faceRes sub).res.u
        = (2 : ℤ) ^ (Int.clog 2 (1 / min (max uw (1 / (faceRes.u : K)))
            (if sub = true then 0.25 else 0.125))).toNat := by
      rw [← hlu]; rfl
    have h1 : wpu = 1 := by
      rw [hwpu, hR]
      exact (pixel_width_eq_one_iff _ hu0).2 hn
    rw [hwu, hku, hkuw, h1]
    refine ⟨?_, PtexBicubicFilter.computeWeights_unit S _⟩
    rw [mul_one]; exact ceil_add_four _
  · intro hn
    have hR : ((PtexBicubicFilter.new S).buildKernel u v uw vw faceRes sub).res.v
        = (2 : ℤ) ^ (Int.clog 2 (1 / min (max vw (1 / (faceRes.v : K)))
            (if sub = true then 0.25 else 0.125))).toNat := by
      rw [← hlv]; rfl
    have h1 : wpv = 1 := by
      rw [hwpv, hR]
      exact (pixel_width_eq_one_iff _ hv0).2 hn
    rw [hwv, hkv, hkvw, h1]
    refine ⟨?_, PtexBicubicFilter.computeWeights_unit S _⟩
    rw [mul_one]; exact ceil_add_four _

/-- C10 (witness): the Mitchell sharpness `2/3` with `uw = 1/8`, `vw = 1/2` on a
16 x 16 face, not a subface: both clamped widths are `1/8 = 1/2^3`. -/
theorem bicubic_weights_sum_unit_witness :
    (∃ n : ℕ, min (max (1 / 8 : ℚ) (1 / (((⟨4, 4⟩ : Res).u : ℤ) : ℚ)))
        (if false = true then 0.25 else 0.125) = 1 / 2 ^ n)
    ∧ ((PtexBicubicFilter.new (2 / 3 : ℚ)).buildKernel (1 / 2) (1 / 2) (1 / 8) (1 / 2)
        ⟨4, 4⟩ false).uw = 4
    ∧ ((PtexBicubicFilter.new (2 / 3 : ℚ)).buildKernel (1 / 2) (1 / 2) (1 / 8) (1 / 2)
        ⟨4, 4⟩ false).ku.sum = 1 :=
  ⟨⟨3, by norm_num [Res.u]⟩,
    (bicubic_weights_sum_unit (2 / 3 : ℚ) (1 / 2) (1 / 2) (1 / 8) (1 / 2) ⟨4, 4⟩ false).1
      ⟨3, by norm_num [Res.u]⟩⟩

/-- C18: partition of unity of the bicubic kernel function: for every sharpness `S` and
every `t` in `[0, 1)`, `k (t - 2) + k (t - 1) + k t + k (t + 1) = 1`, and `k` vanishes at
every other integer shift of `t`; consequently, whenever the pixel width `wp = w * R` of
an axis is 1 (the clamped width `w` is a reciprocal power of two), the weights
`PtexBicubicFilter::buildKernel` writes for that axis sum to exactly 1. -/
theorem bicubic_partition_of_unity (S t : K) (h0 : 0 ≤ t) (h1 : t < 1) :
    (PtexBicubicFilter.new S).k (t - 2) + (PtexBicubicFilter.new S).k (t - 1)
      + (PtexBicubicFilter.new S).k t + (PtexBicubicFilter.new S).k (t + 1) = 1
    ∧ (∀ j : ℤ, j < -2 ∨ 1 < j → (PtexBicubicFilter.new S).k (t + (j : K)) = 0)
    ∧ ∀ (u v uw vw : K) (faceRes : Res) (sub : Bool),
        (min (max uw (1 / (faceRes.u : K))) (if sub = true then 0.25 else 0.125)
            * (((PtexBicubicFilter.new S).buildKernel u v uw vw faceRes sub).res.u : K) = 1 →
          ((PtexBicubicFilter.new S).buildKernel u v uw vw faceRes sub).ku.sum = 1)
        ∧ (min (max vw (1 / (faceRes.v : K))) (if sub = true then 0.25 else 0.125)
            * (((PtexBicubicFilter.new S).buildKernel u v uw vw faceRes sub).res.v : K) = 1 →
          ((PtexBicubicFilter.new S).buildKernel u v uw vw faceRes sub).kv.sum = 1) := by
  refine ⟨PtexBicubicFilter.k_partition S t h0 h1, ?_, ?_⟩
  · intro j hj
    apply PtexBicubicFilter.k_eq_zero
    rcases hj with hj | hj
    · have hj3 : j ≤ -3 := by omega
      have : (j : K) ≤ -3 := by exact_mod_cast hj3
      rw [abs_of_nonpos (by linarith)]
      linarith
    · have hj2 : 2 ≤ j := by omega
      have : (2 : K) ≤ j := by exact_mod_cast hj2
      rw [abs_of_nonneg (by linarith)]
      linarith
  · intro u v uw vw faceRes sub
    obtain ⟨k, wu, wv, pu, pv, wpu, wpv, rfl, rfl, rfl, -, -, rfl, rfl, hwpu, hwpv, -, -, -, -,
      hku, hkv, hkuw, hkvw, -, -, -, -, hwu, hwv⟩ :=
      bicubic_buildKernel_spec (PtexBicubicFilter.new S) u v uw vw faceRes sub
    constructor
    · intro h
      rw [← hwpu] at h
      rw [hwu, hku, hkuw, h]
      exact PtexBicubicFilter.computeWeights_unit S _
    · intro h
      rw [← hwpv] at h
      rw [hwv, hkv, hkvw, h]
      exact PtexBicubicFilter.computeWeights_unit S _


/-- C18 (witness): sharpness `0` and `t = 1/4`; and the B-spline builder with
`uw = vw = 1/8` on a 16 x 16 face, where the pixel width is 1. -/
theorem bicubic_partition_of_unity_witness :
    ((0 : ℚ) ≤ 1 / 4 ∧ (1 / 4 : ℚ) < 1)
    ∧ (PtexBicubicFilter.new (0 : ℚ)).k (1 / 4 - 2)
        + (PtexBicubicFilter.new (0 : ℚ)).k (1 / 4 - 1)
        + (PtexBicubicFilter.new (0 : ℚ)).k (1 / 4)
        + (PtexBicubicFilter.new (0 : ℚ)).k (1 / 4 + 1) = 1
    ∧ ((PtexBicubicFilter.new (0 : ℚ)).buildKernel (1 / 2) (1 / 2) (1 / 8) (1 / 8)
        ⟨4, 4⟩ false).ku.sum = 1 :=
  ⟨⟨by norm_num, by norm_num⟩,
    (bicubic_partition_of_unity (0 : ℚ) (1 / 4) (by norm_num) (by norm_num)).1,
    ((bicubic_partition_of_unity (0 : ℚ) (1 / 4) (by norm_num) (by norm_num)).2.2
      (1 / 2) (1 / 2) (1 / 8) (1 / 8) ⟨4, 4⟩ false).1 bspline_unit_width_example⟩

/-- C14: support of the bicubic and gaussian kernels: with `R` the pixel dimension of the
chosen level, `p = u * R - 0.5` and `wp = w * R` for the clamped width `w`, `buildKernel`
returns the origin `ceil(p - 2 wp)` and the width `ceil(p + 2 wp) - ceil(p - 2 wp)`; the
taps `k.u ≤ i < k.u + k.uw` are exactly the integers with `p - 2 wp ≤ i < p + 2 wp`,
the weight of tap `i` is the kernel function at `(i - p) / wp`, and that argument lies in
`[-2, 2)` exactly for the taps. Likewise for `v`, for every coefficient array and
whatever the library `exp` returns. -/
theorem cubic_gaussian_support (f : PtexBicubicFilter K) (exp : K → K) (u v uw vw : K)
    (faceRes : Res) (sub : Bool) :
    (∃ (k : PtexSeparableKernel K) (pu wpu pv wpv : K),
      k = f.buildKernel u v uw vw faceRes sub
      ∧ pu = u * (k.res.u : K) - 0.5
      ∧ wpu = min (max uw (1 / (faceRes.u : K))) (if sub = true then 0.25 else 0.125)
          * (k.res.u : K)
      ∧ pv = v * (k.res.v : K) - 0.5
      ∧ wpv = min (max vw (1 / (faceRes.v : K))) (if sub = true then 0.25 else 0.125)
          * (k.res.v : K)
      ∧ k.u = ⌈pu - 2 * wpu⌉ ∧ k.uw = ⌈pu + 2 * wpu⌉ - ⌈pu - 2 * wpu⌉
      ∧ k.v = ⌈pv - 2 * wpv⌉ ∧ k.vw = ⌈pv + 2 * wpv⌉ - ⌈pv - 2 * wpv⌉
      ∧ (∀ i : ℤ, (k.u ≤ i ∧ i < k.u + k.uw) ↔ (pu - 2 * wpu ≤ (i : K) ∧ (i : K) < pu + 2 * wpu))
      ∧ (∀ i : ℤ, (k.v ≤ i ∧ i < k.v + k.vw) ↔ (pv - 2 * wpv ≤ (i : K) ∧ (i : K) < pv + 2 * wpv))
      ∧ k.ku = (List.range k.uw.toNat).map
          (fun j : ℕ => f.k ((((k.u + (j : ℤ) : ℤ) : K) - pu) / wpu))
      ∧ k.kv = (List.range k.vw.toNat).map
          (fun j : ℕ => f.k ((((k.v + (j : ℤ) : ℤ) : K) - pv) / wpv))
      ∧ (∀ i : ℤ, (k.u ≤ i ∧ i < k.u + k.uw)
          ↔ (-2 ≤ ((i : K) - pu) / wpu ∧ ((i : K) - pu) / wpu < 2))
      ∧ (∀ i : ℤ, (k.v ≤ i ∧ i < k.v + k.vw)
          ↔ (-2 ≤ ((i : K) - pv) / wpv ∧ ((i : K) - pv) / wpv < 2)))
    ∧ (∃ (k : PtexSeparableKernel K) (pu wpu pv wpv : K),
      k = PtexGaussianFilter.buildKernel exp u v uw vw faceRes sub
      ∧ pu = u * (k.res.u : K) - 0.5
      ∧ wpu = min (max uw (1 / (faceRes.u : K))) (if sub = true then 0.25 else 0.125)
          * (k.res.u : K)
      ∧ pv = v * (k.res.v : K) - 0.5
      ∧ wpv = min (max vw (1 / (faceRes.v : K))) (if sub = true then 0.25 else 0.125)
          * (k.res.v : K)
      ∧ k.u = ⌈pu - 2 * wpu⌉ ∧ k.uw = ⌈pu + 2 * wpu⌉ - ⌈pu - 2 * wpu⌉
      ∧ k.v = ⌈pv - 2 * wpv⌉ ∧ k.vw = ⌈pv + 2 * wpv⌉ - ⌈pv - 2 * wpv⌉
      ∧ (∀ i : ℤ, (k.u ≤ i ∧ i < k.u + k.uw) ↔ (pu - 2 * wpu ≤ (i : K) ∧ (i : K) < pu + 2 * wpu))
      ∧ (∀ i : ℤ, (k.v ≤ i ∧ i < k.v + k.vw) ↔ (pv - 2 * wpv ≤ (i : K) ∧ (i : K) < pv + 2 * wpv))
      ∧ k.ku = (List.range k.uw.toNat).map
          (fun j : ℕ => PtexGaussianFilter.k exp ((((k.u + (j : ℤ) : ℤ) : K) - pu) / wpu))
      ∧ k.kv = (List.range k.vw.toNat).map
          (fun j : ℕ => PtexGaussianFilter.k exp ((((k.v + (j : ℤ) : ℤ) : K) - pv) / wpv))
      ∧ (∀ i : ℤ, (k.u ≤ i ∧ i < k.u + k.uw)
          ↔ (-2 ≤ ((i : K) - pu) / wpu ∧ ((i : K) - pu) / wpu < 2))
      ∧ (∀ i : ℤ, (k.v ≤ i ∧ i < k.v + k.vw)
          ↔ (-2 ≤ ((i : K) - pv) / wpv ∧ ((i : K) - pv) / wpv < 2))) := by
  constructor
  · obtain ⟨k, wu, wv, pu, pv, wpu, wpv, hk, rfl, rfl, -, -, hpu, hpv, hwpu, hwpv, hu1, -, hv1, -,
      hku, hkv, hkuw, hkvw, -, -, -, -, hwu, hwv⟩ :=
      bicubic_buildKernel_spec f u v uw vw faceRes sub
    have hu0 : 0 < wpu := by linarith
    have hv0 : 0 < wpv := by linarith
    refine ⟨k, pu, wpu, pv, wpv, hk, hpu, hwpu, hpv, hwpv, hku, hkuw, hkv, hkvw, ?_, ?_, ?_, ?_,
      ?_, ?_⟩
    · intro i; rw [hku, hkuw]; exact (support_iff pu wpu hu0 i).1
    · intro i; rw [hkv, hkvw]; exact (support_iff pv wpv hv0 i).1
    · rw [hwu]
      exact List.map_congr_left (fun j _ => congrArg f.k (tap_argument k.u pu wpu j))
    · rw [hwv]
      exact List.map_congr_left (fun j _ => congrArg f.k (tap_argument k.v pv wpv j))
    · intro i; rw [hku, hkuw]; exact (support_iff pu wpu hu0 i).2
    · intro i; rw [hkv, hkvw]; exact (support_iff pv wpv hv0 i).2
  · obtain ⟨k, wu, wv, pu, pv, wpu, wpv, hk, rfl, rfl, -, -, hpu, hpv, hwpu, hwpv, hu1, -, hv1, -,
      hku, hkv, hkuw, hkvw, -, -, -, -, hwu, hwv⟩ :=
      gaussian_buildKernel_spec exp u v uw vw faceRes sub
    have hu0 : 0 < wpu := by linarith
    have hv0 : 0 < wpv := by linarith
    refine ⟨k, pu, wpu, pv, wpv, hk, hpu, hwpu, hpv, hwpv, hku, hkuw, hkv, hkvw, ?_, ?_, ?_, ?_,
      ?_, ?_⟩
    · intro i; rw [hku, hkuw]; exact (support_iff pu wpu hu0 i).1
    · intro i; rw [hkv, hkvw]; exact (support_iff pv wpv hv0 i).1
    · rw [hwu]
      exact List.map_congr_left
        (fun j _ => congrArg (PtexGaussianFilter.k exp) (tap_argument k.u pu wpu j))
    · rw [hwv]
      exact List.map_congr_left
        (fun j _ => congrArg (PtexGaussianFilter.k exp) (tap_argument k.v pv wpv j))
    · intro i; rw [hku, hkuw]; exact (support_iff pu wpu hu0 i).2
    · intro i; rw [hkv, hkvw]; exact (support_iff pv wpv hv0 i).2

/-- C19: the box weights measure exact coverage: for every extent `u1`, `u2` whose size
`ceil(u2) - floor(u1)` is 1, 2 or 3, the weights of
`computeWeights(kernel, size, 1-(u1-floor(u1)), 1-(ceil(u2)-u2))` sum to `u2 - u1`, and
each lies in `(0, 1]` when the size is at least 2; so the weights
`PtexBoxFilter::buildKernel` returns for an axis sum to the filter width in pixels
`w * R` at the chosen level, and each lies in `(0, 1]` when the axis has at least two
taps. -/
theorem box_weights_coverage (u1 u2 : K) (hs1 : 1 ≤ toInt (ceil u2) - toInt (floor u1))
    (hs3 : toInt (ceil u2) - toInt (floor u1) ≤ 3) :
    (∃ l, PtexBoxFilter.computeWeights (toInt (ceil u2) - toInt (floor u1))
          (1 - (u1 - floor u1)) (1 - (ceil u2 - u2)) = some l
      ∧ l.length = (toInt (ceil u2) - toInt (floor u1)).toNat
      ∧ l.sum = u2 - u1
      ∧ (2 ≤ toInt (ceil u2) - toInt (floor u1) → ∀ x ∈ l, 0 < x ∧ x ≤ 1))
    ∧ ∀ (u v uw vw : K) (faceRes : Res) (sub : Bool),
        ∃ k, PtexBoxFilter.buildKernel u v uw vw faceRes sub = some k
          ∧ k.ku.sum = max (min uw 1.0) (1 / (faceRes.u : K)) * (k.res.u : K)
          ∧ k.kv.sum = max (min vw 1.0) (1 / (faceRes.v : K)) * (k.res.v : K)
          ∧ (2 ≤ k.uw → ∀ x ∈ k.ku, 0 < x ∧ x ≤ 1)
          ∧ (2 ≤ k.vw → ∀ x ∈ k.kv, 0 < x ∧ x ≤ 1) := by
  refine ⟨box_coverage u1 u2 hs1 hs3, ?_⟩
  intro u v uw vw faceRes sub
  obtain ⟨k, hk, -, -, -, -, -, -, hu1, hu3, hv1, hv3, -, -, hsu, hsv, hku, hkv, hkuw, hkvw,
    hwu, hwv⟩ := box_buildKernel_spec u v uw vw faceRes sub
  refine ⟨k, hk, hsu, hsv, ?_, ?_⟩
  · intro h2
    rw [hku] at hkuw
    have hsz : toInt (ceil (u * (k.res.u : K)
          + 0.5 * (max (min uw 1.0) (1 / (faceRes.u : K)) * (k.res.u : K))))
        - toInt (floor (u * (k.res.u : K)
          - 0.5 * (max (min uw 1.0) (1 / (faceRes.u : K)) * (k.res.u : K)))) = k.uw := by
      rw [toInt_ceil, toInt_floor, hkuw]
    obtain ⟨l, hl, -, -, hall⟩ := box_coverage _ _ (by rw [hsz]; exact hu1) (by rw [hsz]; exact hu3)
    rw [hsz] at hl hall
    rw [hwu] at hl
    rw [Option.some.inj hl]
    exact hall h2
  · intro h2
    rw [hkv] at hkvw
    have hsz : toInt (ceil (v * (k.res.v : K)
          + 0.5 * (max (min vw 1.0) (1 / (faceRes.v : K)) * (k.res.v : K))))
        - toInt (floor (v * (k.res.v : K)
          - 0.5 * (max (min vw 1.0) (1 / (faceRes.v : K)) * (k.res.v : K)))) = k.vw := by
      rw [toInt_ceil, toInt_floor, hkvw]
    obtain ⟨l, hl, -, -, hall⟩ := box_coverage _ _ (by rw [hsz]; exact hv1) (by rw [hsz]; exact hv3)
    rw [hsz] at hl hall
    rw [hwv] at hl
    rw [Option.some.inj hl]
    exact hall h2


/-- C19 (witness): the extent `[5/4, 11/4]`, of size 2, whose weights sum to `3/2` and
lie in `(0, 1]`. -/
theorem box_weights_coverage_witness :
    (1 ≤ toInt (ceil (11 / 4 : ℚ)) - toInt (floor (5 / 4 : ℚ))
      ∧ toInt (ceil (11 / 4 : ℚ)) - toInt (floor (5 / 4 : ℚ)) ≤ 3
      ∧ 2 ≤ toInt (ceil (11 / 4 : ℚ)) - toInt (floor (5 / 4 : ℚ)))
    ∧ ∃ l, PtexBoxFilter.computeWeights (toInt (ceil (11 / 4 : ℚ)) - toInt (floor (5 / 4 : ℚ)))
          (1 - (5 / 4 - floor (5 / 4 : ℚ))) (1 - (ceil (11 / 4 : ℚ) - 11 / 4)) = some l
      ∧ l.sum = 11 / 4 - 5 / 4 ∧ ∀ x ∈ l, 0 < x ∧ x ≤ 1 :=
  ⟨⟨by rw [box_extent_example]; decide, by rw [box_extent_example]; decide,
      by rw [box_extent_example]⟩,
    (box_weights_coverage (5 / 4 : ℚ) (11 / 4) (by rw [box_extent_example]; decide)
      (by rw [box_extent_example]; decide)).1.imp
      (fun _ h => ⟨h.1, h.2.2.1, h.2.2.2 (by rw [box_extent_example])⟩)⟩

/-- C13 (counterexample): the box builder with `uw = vw = 2` on an 8 x 8 face at the sample
centre `u = v = 1/4`: the level is 0 and the extent `[-1/4, 3/4]` covers two texels, so
two weights `1/4, 3/4` are written from the origin `-1`, not a single weight 1. -/
theorem box_scenario_counterexample :
    (0 : ℚ) ≤ 1 / 4 ∧ (1 / 4 : ℚ) < 1 ∧ (⟨3, 3⟩ : Res).u = 8
    ∧ ∃ k, PtexBoxFilter.buildKernel (1 / 4 : ℚ) (1 / 4) 2.0 2.0 ⟨3, 3⟩ false = some k
        ∧ k.res.ulog2 = 0 ∧ k.u = -1 ∧ k.uw = 2 ∧ k.ku = [1 / 4, 3 / 4] ∧ k.uw ≠ 1 := by
  have h3 : (3 : ℤ).toNat = 3 := rfl
  have h0 : (0 : ℤ).toNat = 0 := rfl
  have hw : max (min (2.0 : ℚ) 1.0) (1 / (((2 : ℤ) ^ 3 : ℤ) : ℚ)) = 1 := by norm_num
  have hclog : Int.clog 2 (1 / (1 : ℚ)) = 0 := by
    rw [div_one]; exact Int.clog_one_right 2
  refine ⟨by norm_num, by norm_num, by simp [Res.u],
    ⟨⟨0, 0⟩, -1, -1, 2, 2, [1 / 4, 3 / 4], [1 / 4, 3 / 4]⟩, ?_, rfl, rfl, rfl, rfl, by decide⟩
  simp only [PtexBoxFilter.buildKernel, toInt_ceil, toInt_floor, toInt_ceilLog2, Res.u, Res.v,
    h3, hw, hclog, h0]
  norm_num [PtexBoxFilter.computeWeights, ceil, floor, ceil_eq_neg_floor_neg]

/-- C13 (amended): the box builder with `uw = vw = 2` on an 8 x 8 face, for every sample
centre `u`, `v` in `[0, 1)`: the width is clamped to 1, the level is 0 on each axis (a
1 x 1 texel face) and the weights of each axis sum to 1; the axis has a single tap of
weight 1 (origin 0) exactly when the sample centre is `1/2`; for `u < 1/2` it has the two
taps `-1, 0` with weights `1/2 - u, 1/2 + u`, and for `u > 1/2` the two taps `0, 1` with
weights `3/2 - u, u - 1/2`. Likewise for `v`. -/
theorem box_scenario (u v : K) (sub : Bool) (hu0 : 0 ≤ u) (hu1 : u < 1) (hv0 : 0 ≤ v)
    (hv1 : v < 1) :
    ∃ k, PtexBoxFilter.buildKernel u v 2.0 2.0 ⟨3, 3⟩ sub = some k
      ∧ (⟨3, 3⟩ : Res).u = 8 ∧ (⟨3, 3⟩ : Res).v = 8
      ∧ max (min (2.0 : K) 1.0) (1 / (((⟨3, 3⟩ : Res).u : ℤ) : K)) = 1.0
      ∧ max (min (2.0 : K) 1.0) (1 / (((⟨3, 3⟩ : Res).v : ℤ) : K)) = 1.0
      ∧ k.res.ulog2 = 0 ∧ k.res.vlog2 = 0 ∧ k.res.u = 1 ∧ k.res.v = 1
      ∧ k.ku.sum = 1.0 ∧ k.kv.sum = 1.0
      ∧ (k.u, k.uw, k.ku) = (if u < 1 / 2 then ((-1 : ℤ), (2 : ℤ), [1 / 2 - u, 1 / 2 + u])
          else if u = 1 / 2 then ((0 : ℤ), (1 : ℤ), [1])
          else ((0 : ℤ), (2 : ℤ), [3 / 2 - u, u - 1 / 2]))
      ∧ (k.v, k.vw, k.kv) = (if v < 1 / 2 then ((-1 : ℤ), (2 : ℤ), [1 / 2 - v, 1 / 2 + v])
          else if v = 1 / 2 then ((0 : ℤ), (1 : ℤ), [1])
          else ((0 : ℤ), (2 : ℤ), [3 / 2 - v, v - 1 / 2])) := by
  have hRu8 : (⟨3, 3⟩ : Res).u = 8 := by simp [Res.u]
  have hRv8 : (⟨3, 3⟩ : Res).v = 8 := by simp [Res.v]
  have hwu : max (min (2.0 : K) 1.0) (1 / (((⟨3, 3⟩ : Res).u : ℤ) : K)) = 1 := by
    rw [hRu8]; norm_num
  have hwv : max (min (2.0 : K) 1.0) (1 / (((⟨3, 3⟩ : Res).v : ℤ) : K)) = 1 := by
    rw [hRv8]; norm_num
  obtain ⟨k, hk, hlu, hlv, -, -, -, -, -, -, -, -, -, -, hsu, hsv, hku, hkv, hkuw, hkvw, hcu,
    hcv⟩ := box_buildKernel_spec u v 2.0 2.0 ⟨3, 3⟩ sub
  rw [hwu, div_one, Int.clog_one_right] at hlu
  rw [hwv, div_one, Int.clog_one_right] at hlv
  have hRu : k.res.u = 1 := by unfold Res.u; rw [hlu]; rfl
  have hRv : k.res.v = 1 := by unfold Res.v; rw [hlv]; rfl
  have hRuK : (k.res.u : K) = 1 := by rw [hRu]; norm_num
  have hRvK : (k.res.v : K) = 1 := by rw [hRv]; norm_num
  refine ⟨k, hk, hRu8, hRv8, by rw [hwu]; norm_num, by rw [hwv]; norm_num, hlu, hlv, hRu, hRv,
    ?_, ?_, ?_, ?_⟩
  · rw [hsu, hwu, hRuK]; norm_num
  · rw [hsv, hwv, hRvK]; norm_num
  · exact box_axis_unit u _ _ (by rw [hRuK, hwu]; norm_num) (by rw [hRuK, hwu]; norm_num)
      hu0 hu1 k.u k.uw k.ku hku hkuw hcu
  · exact box_axis_unit v _ _ (by rw [hRvK, hwv]; norm_num) (by rw [hRvK, hwv]; norm_num)
      hv0 hv1 k.v k.vw k.kv hkv hkvw hcv

/-- C13 (witness): the sample centre `(1/2, 3/4)`: one tap along u, two along v. -/
theorem box_scenario_witness :
    ((0 : ℚ) ≤ 1 / 2 ∧ (1 / 2 : ℚ) < 1 ∧ (0 : ℚ) ≤ 3 / 4 ∧ (3 / 4 : ℚ) < 1)
    ∧ ∃ k, PtexBoxFilter.buildKernel (1 / 2 : ℚ) (3 / 4) 2.0 2.0 ⟨3, 3⟩ false = some k
        ∧ k.ku.sum = 1.0 ∧ k.kv.sum = 1.0 :=
  ⟨⟨by norm_num, by norm_num, by norm_num, by norm_num⟩,
    (box_scenario (1 / 2 : ℚ) (3 / 4) false (by norm_num) (by norm_num) (by norm_num)
      (by norm_num)).imp (fun _ h => ⟨h.1, h.2.2.2.2.2.2.2.2.2.1, h.2.2.2.2.2.2.2.2.2.2.1⟩)⟩

/-- C15 (amended): with `R` the pixel dimension of the chosen level, `p = u * R - 0.5` and
`wp = w * R` for the clamped width `w`: the box builder does not shift by the texel
centre and floors its lower bound, returning the origin `floor(p + 0.5 - 0.5 wp)`
(that is `floor(u * R - 0.5 wp)`) and the width `ceil(p + 0.5 + 0.5 wp)` minus the
origin; the bilinear builder returns the origin `floor(p)` and the width 2 whatever
`wp` is. Likewise for `v`, for every sample centre, filter width and face
resolution. -/
theorem box_bilinear_extent (log2 : K → K) (u v uw vw : K) (faceRes : Res) (sub : Bool) :
    (∃ (k : PtexSeparableKernel K) (pu wpu pv wpv : K),
      PtexBoxFilter.buildKernel u v uw vw faceRes sub = some k
      ∧ pu = u * (k.res.u : K) - 0.5
      ∧ wpu = max (min uw 1.0) (1 / (faceRes.u : K)) * (k.res.u : K)
      ∧ pv = v * (k.res.v : K) - 0.5
      ∧ wpv = max (min vw 1.0) (1 / (faceRes.v : K)) * (k.res.v : K)
      ∧ k.u = ⌊pu + 0.5 - 0.5 * wpu⌋ ∧ k.u = ⌊u * (k.res.u : K) - 0.5 * wpu⌋
      ∧ k.uw = ⌈pu + 0.5 + 0.5 * wpu⌉ - ⌊pu + 0.5 - 0.5 * wpu⌋
      ∧ k.v = ⌊pv + 0.5 - 0.5 * wpv⌋ ∧ k.v = ⌊v * (k.res.v : K) - 0.5 * wpv⌋
      ∧ k.vw = ⌈pv + 0.5 + 0.5 * wpv⌉ - ⌊pv + 0.5 - 0.5 * wpv⌋)
    ∧ (∃ (k : PtexSeparableKernel K) (pu pv : K),
      k = PtexBilinearFilter.buildKernel log2 u v uw vw faceRes sub
      ∧ pu = u * (k.res.u : K) - 0.5 ∧ pv = v * (k.res.v : K) - 0.5
      ∧ k.u = ⌊pu⌋ ∧ k.uw = 2 ∧ k.v = ⌊pv⌋ ∧ k.vw = 2) := by
  constructor
  · obtain ⟨k, hk, -, -, -, -, -, -, -, -, -, -, -, -, -, -, hku, hkv, hkuw, hkvw, -⟩ :=
      box_buildKernel_spec u v uw vw faceRes sub
    have eu1 : u * (k.res.u : K) - 0.5 + 0.5
        - 0.5 * (max (min uw 1.0) (1 / (faceRes.u : K)) * (k.res.u : K))
        = u * (k.res.u : K)
          - 0.5 * (max (min uw 1.0) (1 / (faceRes.u : K)) * (k.res.u : K)) := by ring
    have eu2 : u * (k.res.u : K) - 0.5 + 0.5
        + 0.5 * (max (min uw 1.0) (1 / (faceRes.u : K)) * (k.res.u : K))
        = u * (k.res.u : K)
          + 0.5 * (max (min uw 1.0) (1 / (faceRes.u : K)) * (k.res.u : K)) := by ring
    have ev1 : v * (k.res.v : K) - 0.5 + 0.5
        - 0.5 * (max (min vw 1.0) (1 / (faceRes.v : K)) * (k.res.v : K))
        = v * (k.res.v : K)
          - 0.5 * (max (min vw 1.0) (1 / (faceRes.v : K)) * (k.res.v : K)) := by ring
    have ev2 : v * (k.res.v : K) - 0.5 + 0.5
        + 0.5 * (max (min vw 1.0) (1 / (faceRes.v : K)) * (k.res.v : K))
        = v * (k.res.v : K)
          + 0.5 * (max (min vw 1.0) (1 / (faceRes.v : K)) * (k.res.v : K)) := by ring
    refine ⟨k, _, _, _, _, hk, rfl, rfl, rfl, rfl, ?_, hku, ?_, ?_, hkv, ?_⟩
    · rw [eu1]; exact hku
    · rw [eu1, eu2, ← hku]; exact hkuw
    · rw [ev1]; exact hkv
    · rw [ev1, ev2, ← hkv]; exact hkvw
  · exact ⟨_, _, _, rfl, rfl, rfl, toInt_floor _, rfl, toInt_floor _, rfl⟩

end Claims

/-! ## Claims over the reals -/

section RealClaims

/-- C6: resolution selection is monotonic per axis for each of the four builders: over the
reals, take any two calls of a builder on the same face resolution and subface flag, with
sample centres `(u1, v1)`, `(u2, v2)` and widths `(uw1, vw1)`, `(uw2, vw2)` that are
otherwise unrelated. If `uw1 ≤ uw2` then the u level chosen for `uw1` is at least the
u level chosen for `uw2`; if `vw1 ≤ vw2` then the v level chosen for `vw1` is at least
the v level chosen for `vw2`. Each axis needs only the order of its own widths. -/
theorem level_monotone (f : PtexBicubicFilter ℝ) (exp : ℝ → ℝ)
    (u1 v1 uw1 vw1 u2 v2 uw2 vw2 : ℝ) (faceRes : Res) (sub : Bool) :
    (uw1 ≤ uw2 →
      (∃ k1 k2, PtexBoxFilter.buildKernel u1 v1 uw1 vw1 faceRes sub = some k1
          ∧ PtexBoxFilter.buildKernel u2 v2 uw2 vw2 faceRes sub = some k2
          ∧ k2.res.ulog2 ≤ k1.res.ulog2)
      ∧ (PtexBilinearFilter.buildKernel (Real.logb 2) u2 v2 uw2 vw2 faceRes sub).res.ulog2
          ≤ (PtexBilinearFilter.buildKernel (Real.logb 2) u1 v1 uw1 vw1 faceRes sub).res.ulog2
      ∧ (PtexGaussianFilter.buildKernel exp u2 v2 uw2 vw2 faceRes sub).res.ulog2
          ≤ (PtexGaussianFilter.buildKernel exp u1 v1 uw1 vw1 faceRes sub).res.ulog2
      ∧ (f.buildKernel u2 v2 uw2 vw2 faceRes sub).res.ulog2
          ≤ (f.buildKernel u1 v1 uw1 vw1 faceRes sub).res.ulog2)
    ∧ (vw1 ≤ vw2 →
      (∃ k1 k2, PtexBoxFilter.buildKernel u1 v1 uw1 vw1 faceRes sub = some k1
          ∧ PtexBoxFilter.buildKernel u2 v2 uw2 vw2 faceRes sub = some k2
          ∧ k2.res.vlog2 ≤ k1.res.vlog2)
      ∧ (PtexBilinearFilter.buildKernel (Real.logb 2) u2 v2 uw2 vw2 faceRes sub).res.vlog2
          ≤ (PtexBilinearFilter.buildKernel (Real.logb 2) u1 v1 uw1 vw1 faceRes sub).res.vlog2
      ∧ (PtexGaussianFilter.buildKernel exp u2 v2 uw2 vw2 faceRes sub).res.vlog2
          ≤ (PtexGaussianFilter.buildKernel exp u1 v1 uw1 vw1 faceRes sub).res.vlog2
      ∧ (f.buildKernel u2 v2 uw2 vw2 faceRes sub).res.vlog2
          ≤ (f.buildKernel u1 v1 uw1 vw1 faceRes sub).res.vlog2) := by
  obtain ⟨hbu1, -, -, -⟩ := clamp_box uw1 faceRes
  obtain ⟨-, -, hbv1, -⟩ := clamp_box vw1 faceRes
  obtain ⟨hcu1, -, -, -⟩ := clamp_cubic uw1 faceRes sub
  obtain ⟨-, -, hcv1, -⟩ := clamp_cubic vw1 faceRes sub
  obtain ⟨b1, hb1, hblu1, hblv1, -⟩ := box_buildKernel_spec u1 v1 uw1 vw1 faceRes sub
  obtain ⟨b2, hb2, hblu2, hblv2, -⟩ := box_buildKernel_spec u2 v2 uw2 vw2 faceRes sub
  obtain ⟨g1, gwu1, gwv1, -, -, -, -, rfl, rfl, rfl, hglu1, hglv1, -⟩ :=
    gaussian_buildKernel_spec exp u1 v1 uw1 vw1 faceRes sub
  obtain ⟨g2, gwu2, gwv2, -, -, -, -, rfl, rfl, rfl, hglu2, hglv2, -⟩ :=
    gaussian_buildKernel_spec exp u2 v2 uw2 vw2 faceRes sub
  obtain ⟨c1, cwu1, cwv1, -, -, -, -, rfl, rfl, rfl, hclu1, hclv1, -⟩ :=
    bicubic_buildKernel_spec f u1 v1 uw1 vw1 faceRes sub
  obtain ⟨c2, cwu2, cwv2, -, -, -, -, rfl, rfl, rfl, hclu2, hclv2, -⟩ :=
    bicubic_buildKernel_spec f u2 v2 uw2 vw2 faceRes sub
  refine ⟨fun hu => ?_, fun hv => ?_⟩
  · have hbu := clamp_box_mono (1 / (faceRes.u : ℝ)) hu
    have hcu := clamp_cubic_mono (1 / (faceRes.u : ℝ)) (if sub = true then 0.25 else 0.125) hu
    refine ⟨⟨b1, b2, hb1, hb2, ?_⟩, bilinear_reslog2_antitone hbu1 hbu, ?_, ?_⟩
    · rw [hblu1, hblu2]; exact clog_inv_antitone hbu1 hbu
    · rw [hglu1, hglu2]; exact clog_inv_antitone hcu1 hcu
    · rw [hclu1, hclu2]; exact clog_inv_antitone hcu1 hcu
  · have hbv := clamp_box_mono (1 / (faceRes.v : ℝ)) hv
    have hcv := clamp_cubic_mono (1 / (faceRes.v : ℝ)) (if sub = true then 0.25 else 0.125) hv
    refine ⟨⟨b1, b2, hb1, hb2, ?_⟩, bilinear_reslog2_antitone hbv1 hbv, ?_, ?_⟩
    · rw [hblv1, hblv2]; exact clog_inv_antitone hbv1 hbv
    · rw [hglv1, hglv2]; exact clog_inv_antitone hcv1 hcv
    · rw [hclv1, hclv2]; exact clog_inv_antitone hcv1 hcv

/-- C6 (witness): on a 16 x 16 face, u widths `1/8 ≤ 1/2` while the v widths decrease
(`1/4`, `1/16`), and v widths `1/4 ≤ 1/3` while the u widths decrease (`1/2`, `1/8`); the
sample centres differ between the two calls. -/
theorem level_monotone_witness :
    ((1 / 8 : ℝ) ≤ 1 / 2
      ∧ (PtexBilinearFilter.buildKernel (Real.logb 2) (3 / 4) (1 / 4) (1 / 2) (1 / 16)
            ⟨4, 4⟩ false).res.ulog2
          ≤ (PtexBilinearFilter.buildKernel (Real.logb 2) (1 / 2) (1 / 2) (1 / 8) (1 / 4)
            ⟨4, 4⟩ false).res.ulog2)
    ∧ ((1 / 4 : ℝ) ≤ 1 / 3
      ∧ ((bspline : PtexBicubicFilter ℝ).buildKernel (3 / 4) (1 / 4) (1 / 8) (1 / 3)
            ⟨4, 4⟩ false).res.vlog2
          ≤ ((bspline : PtexBicubicFilter ℝ).buildKernel (1 / 2) (1 / 2) (1 / 2) (1 / 4)
            ⟨4, 4⟩ false).res.vlog2) :=
  ⟨⟨by norm_num,
      ((level_monotone bspline Real.exp (1 / 2) (1 / 2) (1 / 8) (1 / 4) (3 / 4) (1 / 4) (1 / 2)
        (1 / 16) ⟨4, 4⟩ false).1 (by norm_num)).2.1⟩,
    ⟨by norm_num,
      ((level_monotone bspline Real.exp (1 / 2) (1 / 2) (1 / 2) (1 / 4) (3 / 4) (1 / 4) (1 / 8)
        (1 / 3) ⟨4, 4⟩ false).2 (by norm_num)).2.2.2⟩⟩

/-- C7 (amended): over the reals, for a face of pixel dimension `2^L` with `L ≥ 0` on an
axis: the box and bilinear builders clamp the width to at least one native texel
(`w ≥ 1/2^L`) and choose a level that never exceeds `L`; the bicubic and gaussian
builders apply the upper clamp `minw` (`1/4` for a subface, `1/8` otherwise) after the
lower one, so their clamped width is at least `min(1/2^L, minw)` and their level never
exceeds `max(L, 2)` for a subface and `max(L, 3)` otherwise. -/
theorem level_le_native (f : PtexBicubicFilter ℝ) (exp : ℝ → ℝ) (u v uw vw : ℝ)
    (faceRes : Res) (sub : Bool) (hLu : 0 ≤ faceRes.ulog2) (hLv : 0 ≤ faceRes.vlog2) :
    (∃ k, PtexBoxFilter.buildKernel u v uw vw faceRes sub = some k
        ∧ 1 / (2 : ℝ) ^ faceRes.ulog2 ≤ max (min uw 1.0) (1 / (faceRes.u : ℝ))
        ∧ 1 / (2 : ℝ) ^ faceRes.vlog2 ≤ max (min vw 1.0) (1 / (faceRes.v : ℝ))
        ∧ k.res.ulog2 ≤ faceRes.ulog2 ∧ k.res.vlog2 ≤ faceRes.vlog2)
    ∧ (∃ k, k = PtexBilinearFilter.buildKernel (Real.logb 2) u v uw vw faceRes sub
        ∧ 1 / (2 : ℝ) ^ faceRes.ulog2 ≤ max (min uw 1.0) (1 / (faceRes.u : ℝ))
        ∧ 1 / (2 : ℝ) ^ faceRes.vlog2 ≤ max (min vw 1.0) (1 / (faceRes.v : ℝ))
        ∧ k.res.ulog2 ≤ faceRes.ulog2 ∧ k.res.vlog2 ≤ faceRes.vlog2)
    ∧ (∃ k, k = PtexGaussianFilter.buildKernel exp u v uw vw faceRes sub
        ∧ min (1 / (2 : ℝ) ^ faceRes.ulog2) (if sub = true then 0.25 else 0.125)
            ≤ min (max uw (1 / (faceRes.u : ℝ))) (if sub = true then 0.25 else 0.125)
        ∧ min (1 / (2 : ℝ) ^ faceRes.vlog2) (if sub = true then 0.25 else 0.125)
            ≤ min (max vw (1 / (faceRes.v : ℝ))) (if sub = true then 0.25 else 0.125)
        ∧ k.res.ulog2 ≤ max faceRes.ulog2 (if sub = true then 2 else 3)
        ∧ k.res.vlog2 ≤ max faceRes.vlog2 (if sub = true then 2 else 3))
    ∧ (∃ k, k = f.buildKernel u v uw vw faceRes sub
        ∧ min (1 / (2 : ℝ) ^ faceRes.ulog2) (if sub = true then 0.25 else 0.125)
            ≤ min (max uw (1 / (faceRes.u : ℝ))) (if sub = true then 0.25 else 0.125)
        ∧ min (1 / (2 : ℝ) ^ faceRes.vlog2) (if sub = true then 0.25 else 0.125)
            ≤ min (max vw (1 / (faceRes.v : ℝ))) (if sub = true then 0.25 else 0.125)
        ∧ k.res.ulog2 ≤ max faceRes.ulog2 (if sub = true then 2 else 3)
        ∧ k.res.vlog2 ≤ max faceRes.vlog2 (if sub = true then 2 else 3)) := by
  have hRu : 1 / (faceRes.u : ℝ) = 1 / (2 : ℝ) ^ faceRes.ulog2 := by
    rw [Res.u_eq_zpow faceRes hLu]
  have hRv : 1 / (faceRes.v : ℝ) = 1 / (2 : ℝ) ^ faceRes.vlog2 := by
    rw [Res.v_eq_zpow faceRes hLv]
  obtain ⟨hbu0, -, -, -⟩ := clamp_box uw faceRes
  obtain ⟨-, -, hbv0, -⟩ := clamp_box vw faceRes
  obtain ⟨hcu0, -, -, -⟩ := clamp_cubic uw faceRes sub
  obtain ⟨-, -, hcv0, -⟩ := clamp_cubic vw faceRes sub
  have hbu : 1 / (2 : ℝ) ^ faceRes.ulog2 ≤ max (min uw 1.0) (1 / (faceRes.u : ℝ)) := by
    rw [← hRu]; exact le_max_right _ _
  have hbv : 1 / (2 : ℝ) ^ faceRes.vlog2 ≤ max (min vw 1.0) (1 / (faceRes.v : ℝ)) := by
    rw [← hRv]; exact le_max_right _ _
  obtain ⟨hcu1, hcu2⟩ := clamp_cubic_lower uw (1 / (faceRes.u : ℝ)) faceRes.ulog2 sub hRu
  obtain ⟨hcv1, hcv2⟩ := clamp_cubic_lower vw (1 / (faceRes.v : ℝ)) faceRes.vlog2 sub hRv
  refine ⟨?_, ⟨_, rfl, hbu, hbv, ?_, ?_⟩, ?_, ?_⟩
  · obtain ⟨k, hk, hlu, hlv, -⟩ := box_buildKernel_spec u v uw vw faceRes sub
    refine ⟨k, hk, hbu, hbv, ?_, ?_⟩
    · rw [hlu]; exact clog_inv_le hbu0 hbu
    · rw [hlv]; exact clog_inv_le hbv0 hbv
  · exact bilinear_reslog2_le hLu hbu0 hbu
  · exact bilinear_reslog2_le hLv hbv0 hbv
  · obtain ⟨k, wu, wv, -, -, -, -, rfl, rfl, rfl, hlu, hlv, -⟩ :=
      gaussian_buildKernel_spec exp u v uw vw faceRes sub
    refine ⟨_, rfl, hcu1, hcv1, ?_, ?_⟩
    · rw [hlu]; exact clog_inv_le hcu0 hcu2
    · rw [hlv]; exact clog_inv_le hcv0 hcv2
  · obtain ⟨k, wu, wv, -, -, -, -, rfl, rfl, rfl, hlu, hlv, -⟩ :=
      bicubic_buildKernel_spec f u v uw vw faceRes sub
    refine ⟨_, rfl, hcu1, hcv1, ?_, ?_⟩
    · rw [hlu]; exact clog_inv_le hcu0 hcu2
    · rw [hlv]; exact clog_inv_le hcv0 hcv2

/-- C7 (witness): a face with log2 dimensions `(4, 5)` and width `1/100`. -/
theorem level_le_native_witness :
    ((0 : ℤ) ≤ (⟨4, 5⟩ : Res).ulog2 ∧ (0 : ℤ) ≤ (⟨4, 5⟩ : Res).vlog2)
    ∧ ∃ k, PtexBoxFilter.buildKernel (1 / 2 : ℝ) (1 / 2) (1 / 100) (1 / 100) ⟨4, 5⟩ false
        = some k
      ∧ 1 / (2 : ℝ) ^ (⟨4, 5⟩ : Res).ulog2
          ≤ max (min (1 / 100) 1.0) (1 / (((⟨4, 5⟩ : Res).u : ℤ) : ℝ))
      ∧ 1 / (2 : ℝ) ^ (⟨4, 5⟩ : Res).vlog2
          ≤ max (min (1 / 100) 1.0) (1 / (((⟨4, 5⟩ : Res).v : ℤ) : ℝ))
      ∧ k.res.ulog2 ≤ (⟨4, 5⟩ : Res).ulog2 ∧ k.res.vlog2 ≤ (⟨4, 5⟩ : Res).vlog2 :=
  ⟨⟨by decide, by decide⟩,
    (level_le_native bspline Real.exp (1 / 2) (1 / 2) (1 / 100) (1 / 100) ⟨4, 5⟩ false
      (by decide) (by decide)).1⟩

/-- C9 (counterexample): with `u = v = 7/16`, `uw = vw = 1/8` on an 8 x 8 face (not a
subface) the level is 3, the pixel width is 1, the taps are at distances
`-2, -1, 0, 1` from the centre and the weights written for the u axis are
`exp(-8), exp(-2), 1, exp(-2)`: their sum is not less than 1. -/
theorem gaussian_weights_sum_counterexample :
    (0 : ℝ) ≤ 7 / 16 ∧ (7 / 16 : ℝ) < 1 ∧ (0 : ℝ) < 1 / 8 ∧ 1 ≤ (⟨3, 3⟩ : Res).u
    ∧ (PtexGaussianFilter.buildKernel Real.exp (7 / 16) (7 / 16) (1 / 8) (1 / 8)
        ⟨3, 3⟩ false).ku = [Real.exp (-8), Real.exp (-2), 1, Real.exp (-2)]
    ∧ ¬ (PtexGaussianFilter.buildKernel Real.exp (7 / 16) (7 / 16) (1 / 8) (1 / 8)
        ⟨3, 3⟩ false).ku.sum < 1 := by
  have h3 : (3 : ℤ).toNat = 3 := rfl
  have h4 : (4 : ℤ).toNat = 4 := rfl
  have hw : min (max (1 / 8 : ℝ) (1 / (((2 : ℤ) ^ 3 : ℤ) : ℝ)))
      (if false = true then 0.25 else 0.125) = 1 / 8 := by norm_num
  have hclog : Int.clog 2 (1 / (1 / 8 : ℝ)) = 3 := clog_two_eq (by norm_num) (by norm_num)
  have hk : (PtexGaussianFilter.buildKernel Real.exp (7 / 16) (7 / 16) (1 / 8) (1 / 8)
        ⟨3, 3⟩ false).ku = [Real.exp (-8), Real.exp (-2), 1, Real.exp (-2)] := by
    simp only [PtexGaussianFilter.buildKernel, toInt_ceil, toInt_ceilLog2, Res.u, h3, hw, hclog]
    norm_num [PtexGaussianFilter.computeWeights, PtexGaussianFilter.k, ceil_eq_neg_floor_neg,
      h4, List.range_succ]
  refine ⟨by norm_num, by norm_num, by norm_num, by simp [Res.u], hk, ?_⟩
  rw [hk]
  have e8 := Real.exp_pos (-8)
  have e2 := Real.exp_pos (-2)
  simp only [List.sum_cons, List.sum_nil, not_lt]
  linarith

/-- C9 (amended): over the reals, for every sample centre, filter width, subface flag and
face resolution, the weights `exp(-2 * x_i^2)` that `PtexGaussianFilter::buildKernel`
writes for an axis, with `x_i = (k.u - p) / wp + i / wp`, are not normalised and sum to
strictly more than 1. -/
theorem gaussian_weights_sum_gt_one (u v uw vw : ℝ) (faceRes : Res) (sub : Bool) :
    ∃ (k : PtexSeparableKernel ℝ) (pu wpu pv wpv : ℝ),
      k = PtexGaussianFilter.buildKernel Real.exp u v uw vw faceRes sub
      ∧ pu = u * (k.res.u : ℝ) - 0.5
      ∧ wpu = min (max uw (1 / (faceRes.u : ℝ))) (if sub = true then 0.25 else 0.125)
          * (k.res.u : ℝ)
      ∧ pv = v * (k.res.v : ℝ) - 0.5
      ∧ wpv = min (max vw (1 / (faceRes.v : ℝ))) (if sub = true then 0.25 else 0.125)
          * (k.res.v : ℝ)
      ∧ k.ku = (List.range k.uw.toNat).map (fun i : ℕ =>
          Real.exp (-2 * (((k.u : ℝ) - pu) / wpu + (i : ℝ) * (1 / wpu))
            * (((k.u : ℝ) - pu) / wpu + (i : ℝ) * (1 / wpu))))
      ∧ k.kv = (List.range k.vw.toNat).map (fun i : ℕ =>
          Real.exp (-2 * (((k.v : ℝ) - pv) / wpv + (i : ℝ) * (1 / wpv))
            * (((k.v : ℝ) - pv) / wpv + (i : ℝ) * (1 / wpv))))
      ∧ 1 < k.ku.sum ∧ 1 < k.kv.sum := by
  obtain ⟨k, wu, wv, pu, pv, wpu, wpv, rfl, rfl, rfl, -, -, rfl, rfl, hwpu, hwpv, hu1, -, hv1, -,
    hku, hkv, hkuw, hkvw, -, -, -, -, hwu, hwv⟩ :=
    gaussian_buildKernel_spec Real.exp u v uw vw faceRes sub
  refine ⟨_, _, wpu, _, wpv, rfl, rfl, hwpu, rfl, hwpv, hwu, hwv, ?_, ?_⟩
  · rw [hwu, hku, hkuw]
    exact PtexGaussianFilter.computeWeights_sum_gt _ _ hu1
  · rw [hwv, hkv, hkvw]
    exact PtexGaussianFilter.computeWeights_sum_gt _ _ hv1

/-- C17: level selection of the box, bicubic and gaussian builders: for every width
`0 < w ≤ 1` the level `n = int(ceil(log2(1/w)))` (over the reals, the ceiling of the
base-2 logarithm) is non-negative and is the least integer with `2^-n ≤ w`
(`n ≤ m` exactly when `2^-m ≤ w`), hence the width in pixels `wp = w * 2^n` satisfies
`1 ≤ wp < 2`; and in each of the three builders the clamped width `w` of an axis lies
in `(0, 1]`, the level of the axis is that `n`, and `1 ≤ w * R < 2` for the pixel
dimension `R` of the chosen level. -/
theorem level_least_power_of_two (w : ℝ) (h0 : 0 < w) (h1 : w ≤ 1) :
    toInt (ceilLog2 (1 / w)) = ⌈Real.logb 2 (1 / w)⌉
    ∧ 0 ≤ toInt (ceilLog2 (1 / w))
    ∧ (∀ m : ℤ, toInt (ceilLog2 (1 / w)) ≤ m ↔ 1 / (2 : ℝ) ^ m ≤ w)
    ∧ 1 / (2 : ℝ) ^ toInt (ceilLog2 (1 / w)) ≤ w
    ∧ 1 ≤ w * (2 : ℝ) ^ toInt (ceilLog2 (1 / w))
    ∧ w * (2 : ℝ) ^ toInt (ceilLog2 (1 / w)) < 2
    ∧ ∀ (f : PtexBicubicFilter ℝ) (exp : ℝ → ℝ) (u v uw vw : ℝ) (faceRes : Res) (sub : Bool),
        (∃ (k : PtexSeparableKernel ℝ) (wu wv : ℝ),
          PtexBoxFilter.buildKernel u v uw vw faceRes sub = some k
          ∧ wu = max (min uw 1.0) (1 / (faceRes.u : ℝ))
          ∧ wv = max (min vw 1.0) (1 / (faceRes.v : ℝ))
          ∧ 0 < wu ∧ wu ≤ 1 ∧ 0 < wv ∧ wv ≤ 1
          ∧ k.res.ulog2 = toInt (ceilLog2 (1 / wu)) ∧ k.res.vlog2 = toInt (ceilLog2 (1 / wv))
          ∧ 1 ≤ wu * (k.res.u : ℝ) ∧ wu * (k.res.u : ℝ) < 2
          ∧ 1 ≤ wv * (k.res.v : ℝ) ∧ wv * (k.res.v : ℝ) < 2)
        ∧ (∃ (k : PtexSeparableKernel ℝ) (wu wv : ℝ),
          k = f.buildKernel u v uw vw faceRes sub
          ∧ wu = min (max uw (1 / (faceRes.u : ℝ))) (if sub = true then 0.25 else 0.125)
          ∧ wv = min (max vw (1 / (faceRes.v : ℝ))) (if sub = true then 0.25 else 0.125)
          ∧ 0 < wu ∧ wu ≤ 1 ∧ 0 < wv ∧ wv ≤ 1
          ∧ k.res.ulog2 = toInt (ceilLog2 (1 / wu)) ∧ k.res.vlog2 = toInt (ceilLog2 (1 / wv))
          ∧ 1 ≤ wu * (k.res.u : ℝ) ∧ wu * (k.res.u : ℝ) < 2
          ∧ 1 ≤ wv * (k.res.v : ℝ) ∧ wv * (k.res.v : ℝ) < 2)
        ∧ (∃ (k : PtexSeparableKernel ℝ) (wu wv : ℝ),
          k = PtexGaussianFilter.buildKernel exp u v uw vw faceRes sub
          ∧ wu = min (max uw (1 / (faceRes.u : ℝ))) (if sub = true then 0.25 else 0.125)
          ∧ wv = min (max vw (1 / (faceRes.v : ℝ))) (if sub = true then 0.25 else 0.125)
          ∧ 0 < wu ∧ wu ≤ 1 ∧ 0 < wv ∧ wv ≤ 1
          ∧ k.res.ulog2 = toInt (ceilLog2 (1 / wu)) ∧ k.res.vlog2 = toInt (ceilLog2 (1 / wv))
          ∧ 1 ≤ wu * (k.res.u : ℝ) ∧ wu * (k.res.u : ℝ) < 2
          ∧ 1 ≤ wv * (k.res.v : ℝ) ∧ wv * (k.res.v : ℝ) < 2) := by
  obtain ⟨hn, hiff, hle, hp1, hp2⟩ := level_spec w h0 h1
  refine ⟨?_, hn, hiff, hle, hp1, hp2, ?_⟩
  · rw [ceilLog2_eq_ceil_logb _ (by positivity), toInt_intCast]
  · intro f exp u v uw vw faceRes sub
    obtain ⟨hbu0, hbu1, -, -⟩ := clamp_box uw faceRes
    obtain ⟨-, -, hbv0, hbv1⟩ := clamp_box vw faceRes
    obtain ⟨hcu0, hcu1, -, -⟩ := clamp_cubic uw faceRes sub
    obtain ⟨-, -, hcv0, hcv1⟩ := clamp_cubic vw faceRes sub
    refine ⟨?_, ?_, ?_⟩
    · obtain ⟨k, hk, hlu, hlv, hu1, hu2, hv1, hv2, -⟩ :=
        box_buildKernel_spec u v uw vw faceRes sub
      exact ⟨k, _, _, hk, rfl, rfl, hbu0, hbu1, hbv0, hbv1,
        by rw [toInt_ceilLog2]; exact hlu, by rw [toInt_ceilLog2]; exact hlv, hu1, hu2, hv1, hv2⟩
    · obtain ⟨k, wu, wv, pu, pv, wpu, wpv, hk, rfl, rfl, hlu, hlv, -, -, rfl, rfl, hu1, hu2,
        hv1, hv2, -⟩ := bicubic_buildKernel_spec f u v uw vw faceRes sub
      exact ⟨k, _, _, hk, rfl, rfl, hcu0, hcu1, hcv0, hcv1,
        by rw [toInt_ceilLog2]; exact hlu, by rw [toInt_ceilLog2]; exact hlv, hu1, hu2, hv1, hv2⟩
    · obtain ⟨k, wu, wv, pu, pv, wpu, wpv, hk, rfl, rfl, hlu, hlv, -, -, rfl, rfl, hu1, hu2,
        hv1, hv2, -⟩ := gaussian_buildKernel_spec exp u v uw vw faceRes sub
      exact ⟨k, _, _, hk, rfl, rfl, hcu0, hcu1, hcv0, hcv1,
        by rw [toInt_ceilLog2]; exact hlu, by rw [toInt_ceilLog2]; exact hlv, hu1, hu2, hv1, hv2⟩

/-- C17 (witness): the width `3/8`, whose level is 2 and whose pixel width is `3/2`. -/
theorem level_least_power_of_two_witness :
    ((0 : ℝ) < 3 / 8 ∧ (3 / 8 : ℝ) ≤ 1)
    ∧ 1 ≤ (3 / 8 : ℝ) * (2 : ℝ) ^ toInt (ceilLog2 (1 / (3 / 8 : ℝ)))
    ∧ (3 / 8 : ℝ) * (2 : ℝ) ^ toInt (ceilLog2 (1 / (3 / 8 : ℝ))) < 2 :=
  ⟨⟨by norm_num, by norm_num⟩,
    (level_least_power_of_two (3 / 8) (by norm_num) (by norm_num)).2.2.2.2.1,
    (level_least_power_of_two (3 / 8) (by norm_num) (by norm_num)).2.2.2.2.2.1⟩

/-- C15 (counterexample): the box builder with `u = v = 5/8`, `uw = vw = 3/8` on a 16 x 16
face has `R = 4`, `p = 2`, `wp = 3/2` and returns origin 1 and width 3, whereas
`ceil(p - 0.5 wp) = 2` and `ceil(p + 0.5 wp) - ceil(p - 0.5 wp) = 1`; the bilinear
builder with `u = v = 1/2`, `uw = vw = 1/4` on a 4 x 4 face has `R = 4`, `p = 3/2`,
`wp = 1` and returns width 2, whereas `ceil(p + 0.5 wp) - ceil(p - 0.5 wp) = 1`. -/
theorem extent_counterexample :
    (∃ k, PtexBoxFilter.buildKernel (5 / 8 : ℝ) (5 / 8) (3 / 8) (3 / 8) ⟨4, 4⟩ false = some k
      ∧ k.res.u = 4 ∧ k.u = 1 ∧ k.uw = 3
      ∧ ⌈(5 / 8 : ℝ) * 4 - 0.5 - 0.5 * (3 / 8 * 4)⌉ = 2
      ∧ ⌈(5 / 8 : ℝ) * 4 - 0.5 + 0.5 * (3 / 8 * 4)⌉
          - ⌈(5 / 8 : ℝ) * 4 - 0.5 - 0.5 * (3 / 8 * 4)⌉ = 1)
    ∧ (PtexBilinearFilter.buildKernel (Real.logb 2) (1 / 2 : ℝ) (1 / 2) (1 / 4) (1 / 4)
          ⟨2, 2⟩ false).res.u = 4
    ∧ (PtexBilinearFilter.buildKernel (Real.logb 2) (1 / 2 : ℝ) (1 / 2) (1 / 4) (1 / 4)
          ⟨2, 2⟩ false).u = 1
    ∧ (PtexBilinearFilter.buildKernel (Real.logb 2) (1 / 2 : ℝ) (1 / 2) (1 / 4) (1 / 4)
          ⟨2, 2⟩ false).uw = 2
    ∧ ⌈(1 / 2 : ℝ) * 4 - 0.5 + 0.5 * (1 / 4 * 4)⌉
        - ⌈(1 / 2 : ℝ) * 4 - 0.5 - 0.5 * (1 / 4 * 4)⌉ = 1 := by
  have h4 : (4 : ℤ).toNat = 4 := rfl
  have h2 : (2 : ℤ).toNat = 2 := rfl
  have hw : max (min (3 / 8 : ℝ) 1.0) (1 / (((2 : ℤ) ^ 4 : ℤ) : ℝ)) = 3 / 8 := by norm_num
  have hclog : Int.clog 2 (1 / (3 / 8 : ℝ)) = 2 := clog_two_eq (by norm_num) (by norm_num)
  have hwb : max (min (1 / 4 : ℝ) 1.0) (1 / (((2 : ℤ) ^ 2 : ℤ) : ℝ)) = 1 / 4 := by norm_num
  refine ⟨⟨⟨⟨2, 2⟩, 1, 1, 3, 3, [1 / 4, 1, 1 / 4], [1 / 4, 1, 1 / 4]⟩, ?_, rfl, rfl, rfl, ?_, ?_⟩,
    ?_, ?_, rfl, ?_⟩
  · simp only [PtexBoxFilter.buildKernel, toInt_ceil, toInt_floor, toInt_ceilLog2, Res.u, Res.v,
      h4, hw, hclog, h2]
    norm_num [PtexBoxFilter.computeWeights, ceil, floor, ceil_eq_neg_floor_neg, List.replicate]
  · norm_num [ceil_eq_neg_floor_neg]
  · norm_num [ceil_eq_neg_floor_neg]
  · simp only [PtexBilinearFilter.buildKernel, Res.u, h2, hwb, bilinear_reslog2_quarter]
    norm_num
  · simp only [PtexBilinearFilter.buildKernel, Res.u, h2, hwb, bilinear_reslog2_quarter,
      toInt_floor]
    norm_num
  · norm_num [ceil_eq_neg_floor_neg]

/-- C12: the bilinear scenario `u = v = 0.5`, `uw = vw = 0.3` on a face of pixel
dimensions `(4, 4)`: the width stays `0.3`, the level is 2 on each axis (pixel dimension
4), and the kernel has origin `k.u = k.v = 1`, 2 taps per axis and weights `(0.5, 0.5)`
on both axes. -/
theorem bilinear_scenario (sub : Bool) :
    ∃ k : PtexSeparableKernel ℝ,
      k = PtexBilinearFilter.buildKernel (Real.logb 2) 0.5 0.5 0.3 0.3 ⟨2, 2⟩ sub
      ∧ (⟨2, 2⟩ : Res).u = 4 ∧ (⟨2, 2⟩ : Res).v = 4
      ∧ max (min (0.3 : ℝ) 1.0) (1 / (((⟨2, 2⟩ : Res).u : ℤ) : ℝ)) = 0.3
      ∧ max (min (0.3 : ℝ) 1.0) (1 / (((⟨2, 2⟩ : Res).v : ℤ) : ℝ)) = 0.3
      ∧ k.res.ulog2 = 2 ∧ k.res.vlog2 = 2 ∧ k.res.u = 4 ∧ k.res.v = 4
      ∧ k.u = 1 ∧ k.v = 1 ∧ k.uw = 2 ∧ k.vw = 2
      ∧ k.ku = [0.5, 0.5] ∧ k.kv = [0.5, 0.5] := by
  have h2 : (2 : ℤ).toNat = 2 := rfl
  have hw : max (min (0.3 : ℝ) 1.0) (1 / (((2 : ℤ) ^ 2 : ℤ) : ℝ)) = 0.3 := by norm_num
  have hl := bilinear_reslog2_three_tenths
  refine ⟨_, rfl, rfl, rfl, ?_, ?_, ?_, ?_, ?_, ?_, ?_, ?_, rfl, rfl, ?_, ?_⟩
  · simp only [Res.u, h2, hw]
  · simp only [Res.v, h2, hw]
  · simp only [PtexBilinearFilter.buildKernel, Res.u, h2, hw, hl]
  · simp only [PtexBilinearFilter.buildKernel, Res.v, h2, hw, hl]
  · simp only [PtexBilinearFilter.buildKernel, Res.u, h2, hw, hl]
    norm_num
  · simp only [PtexBilinearFilter.buildKernel, Res.v, h2, hw, hl]
    norm_num
  · simp only [PtexBilinearFilter.buildKernel, Res.u, h2, hw, hl, toInt_floor]
    norm_num
  · simp only [PtexBilinearFilter.buildKernel, Res.v, h2, hw, hl, toInt_floor]
    norm_num
  · simp only [PtexBilinearFilter.buildKernel, Res.u, h2, hw, hl, floor]
    norm_num
  · simp only [PtexBilinearFilter.buildKernel, Res.v, h2, hw, hl, floor]
    norm_num

end RealClaims

end Ptex
